import Mathlib

/-!
# Feed generation and caching engine

A shallow embedding of `controllers/Feed.go` (handler `GetFeed` and helper
`updateFeed`) together with the records of `models/User.go`.

* The three MongoDB collections are lists of documents in natural (insertion)
  order; `FindOne` is the first match, `UpdateOne` rewrites the first match,
  `InsertOne` appends.
* The Redis cache is a list of entries carrying their expiry instant.
* Every clock reading a request makes is an explicit input (`Env`). Instants are
  stored as they were read; the store's rounding to milliseconds is not modelled.
* Go's `int` is the 64-bit two's complement integer: arithmetic wraps.
* The stores are reliable: the only failures are the ones the data produce
  (no matching document, a rejected query), plus the cache write, whose
  failure the handler tolerates explicitly.
-/

namespace FeedSystem

/-! ## Data model (models/User.go) -/

/-- A `primitive.ObjectID`: twelve bytes, read as a number below `2 ^ 96`. -/
abbrev ObjectID := Fin (2 ^ 96)

/-- An instant (`time.Time`) as a count of nanoseconds; `0` is Go's zero time. -/
abbrev Time := Nat

/-- Record `models.User`. -/
structure User where
  ID : ObjectID
  Username : String
  Bio : String
  Following : List ObjectID
  Followers : List ObjectID
  IsCelebrity : Bool
  CreatedAt : Time
  LastFeedUpdate : Time
  deriving DecidableEq, Repr

/-- Record `models.Post`. -/
structure Post where
  ID : ObjectID
  UserID : ObjectID
  Content : String
  LikeCount : Int
  Tags : List String
  CreatedAt : Time
  deriving DecidableEq, Repr

/-- Record `models.Feed`. Its own `_id` is assigned by the store and read by
no handler, so it is left out. -/
structure Feed where
  UserID : ObjectID
  Posts : List ObjectID
  UpdatedAt : Time
  deriving DecidableEq, Repr

/-- One Redis entry: the key, the cached page, and the instant it expires. -/
structure CacheEntry where
  key : String
  value : List Post
  expiresAt : Time
  deriving DecidableEq, Repr

/-- The whole persistent state: collections `user`, `post`, `feed` and the cache. -/
structure State where
  users : List User
  posts : List Post
  feeds : List Feed
  cache : List CacheEntry
  deriving DecidableEq, Repr

/-! ## Machine integers -/

/-- Reduction of a mathematical integer to Go's 64-bit `int`. -/
def wrapInt64 (x : Int) : Int := (x + 2 ^ 63) % 2 ^ 64 - 2 ^ 63

/-! ## Store primitives -/

/-- Collection `user`, `FindOne` by `_id`. -/
def findUser (users : List User) (id : ObjectID) : Option User :=
  users.find? (fun u => u.ID = id)

/-- Collection `feed`, `FindOne` by `user_id`. -/
def findFeed (feeds : List Feed) (userID : ObjectID) : Option Feed :=
  feeds.find? (fun f => f.UserID = userID)

/-- The store's `UpdateOne`: the first document matching `p` is rewritten by `f`;
no match is not an error. -/
def updateOne {α : Type} (p : α → Bool) (f : α → α) : List α → List α
  | [] => []
  | x :: xs => if p x then f x :: xs else x :: updateOne p f xs

/-- Sort option `created_at: -1`: newest first, ties kept in natural order. -/
def sortByCreatedAtDesc (ps : List Post) : List Post :=
  ps.insertionSort (fun a b => b.CreatedAt ≤ a.CreatedAt)

/-- Cursor options `SetSkip` and `SetLimit` applied to a sorted result: a negative
skip is rejected by the server, limit `0` means no limit, and a negative limit
returns as many documents as its absolute value. The driver negates a negative
limit in 64 bits, so the least `int64` stays negative and the server rejects it. -/
def skipLimit (sorted : List Post) (skip limit : Int) : Option (List Post) :=
  if skip < 0 then none
  else if limit = 0 then some (sorted.drop skip.toNat)
  else if limit < 0 ∧ wrapInt64 (-limit) < 0 then none
  else some ((sorted.drop skip.toNat).take limit.natAbs)

/-- The query of `GetFeed`: posts whose `_id` is in `ids`, newest first, one page. -/
def findPostsByIDs (posts : List Post) (ids : List ObjectID) (skip limit : Int) :
    Option (List Post) :=
  skipLimit (sortByCreatedAtDesc (posts.filter (fun p => p.ID ∈ ids))) skip limit

/-- The query of `updateFeed`: posts by one of `authors` created strictly after
`since`, newest first, unbounded. -/
def findPostsByAuthorsSince (posts : List Post) (authors : List ObjectID) (since : Time) :
    List Post :=
  sortByCreatedAtDesc (posts.filter (fun p => p.UserID ∈ authors ∧ since < p.CreatedAt))

/-! ## Cache primitives -/

/-- The expiry `10 * time.Minute`, in nanoseconds. -/
def cacheTTL : Nat := 600000000000

/-- A single hexadecimal digit, lower case. -/
def hexDigit (d : Nat) : Char :=
  if d < 10 then Char.ofNat (48 + d) else Char.ofNat (87 + d)

/-- Method `ObjectID.Hex`: twenty-four lower-case hexadecimal digits. -/
def Hex (id : ObjectID) : String :=
  String.mk ((List.range 24).map (fun i => hexDigit (id.val / 16 ^ (23 - i) % 16)))

/-- The key `fmt.Sprintf("feed:%s:%d:%d", userID.Hex(), page, limit)`. -/
def cacheKey (userID : ObjectID) (page limit : Int) : String :=
  "feed:" ++ Hex userID ++ ":" ++ toString page ++ ":" ++ toString limit

/-- The number a list of decimal digit characters denotes (used to read a
rendered integer back). -/
def decVal (cs : List Char) : Nat := cs.foldl (fun acc c => 10 * acc + (c.toNat - 48)) 0

/-- Redis `GET`: the value under `key` unless it is absent or has expired. -/
def cacheGet (cache : List CacheEntry) (key : String) (now : Time) : Option (List Post) :=
  match cache.find? (fun e => e.key = key) with
  | some e => if now < e.expiresAt then some e.value else none
  | none => none

/-- Redis `SET` with expiry: the entry under `key` is replaced. -/
def cacheSet (cache : List CacheEntry) (key : String) (value : List Post) (now : Time) :
    List CacheEntry :=
  ⟨key, value, now + cacheTTL⟩ :: cache.filter (fun e => e.key ≠ key)

/-! ## Requests, responses, and what one request reads from its surroundings -/

/-- The parsed request: the results of `primitive.ObjectIDFromHex` on the path
id and of `strconv.Atoi` on `page` (default "1") and `limit` (default "10");
`none` stands for a parse error. -/
structure Request where
  id : Option ObjectID
  page : Option Int
  limit : Option Int
  deriving DecidableEq, Repr

/-- The body sent by `c.JSON`. -/
inductive Response where
  | ok (posts : List Post) (page limit : Int)
  | error (status : Nat) (msg : String)
  deriving DecidableEq, Repr

/-- HTTP status of a response. -/
def Response.status : Response → Nat
  | .ok _ _ _ => 200
  | .error st _ => st

/-- Clock readings and the fate of the cache write during one request. -/
structure Env where
  cacheGetAt : Time
  feedCreatedAt : Time
  mergeAt : Time
  cacheSetAt : Time
  cacheSetOk : Bool
  deriving DecidableEq, Repr

/-- The store and cache operations a request performs, in order (a record kept
beside the state so that claims about what a request consults can be stated). -/
inductive Call where
  | cacheGet
  | findUser
  | findFeed
  | insertFeed
  | updateFeed
  | findPosts
  | cacheSet
  deriving DecidableEq, Repr

/-- What one handler invocation produces. -/
structure Outcome where
  resp : Response
  state : State
  calls : List Call
  deriving DecidableEq, Repr

/-! ## updateFeed (Feed.go, lines 150-217) -/

/-- The followees that load and are not flagged celebrity (loop of lines 160-167). -/
def followingIDs (users : List User) (user : User) : List ObjectID :=
  user.Following.filter (fun id =>
    match findUser users id with
    | some followedUser => !followedUser.IsCelebrity
    | none => false)

/-- The ids found by the merge query (lines 169-192). -/
def newPostIDs (s : State) (user : User) : List ObjectID :=
  (findPostsByAuthorsSince s.posts (followingIDs s.users user) user.LastFeedUpdate).map
    (fun post => post.ID)

/-- Function `updateFeed`: `none` is a returned error; otherwise the new state and
the caller's feed value as mutated through the pointer. -/
def updateFeed (s : State) (userID : ObjectID) (feed : Feed) (now : Time) :
    Option (State × Feed) :=
  match findUser s.users userID with
  | none => none
  | some user =>
    let feed1 : Feed :=
      { feed with Posts := newPostIDs s user ++ feed.Posts, UpdatedAt := now }
    let feeds1 := updateOne (fun f : Feed => f.UserID = userID)
      (fun f => { f with Posts := feed1.Posts, UpdatedAt := feed1.UpdatedAt }) s.feeds
    let users1 := updateOne (fun u : User => u.ID = userID)
      (fun u => { u with LastFeedUpdate := feed1.UpdatedAt }) s.users
    some ({ s with feeds := feeds1, users := users1 }, feed1)

/-! ## GetFeed (Feed.go, lines 25-148) -/

/-- Lines 81-98: the user's feed, created empty and inserted when absent. -/
def loadOrCreateFeed (s : State) (userID : ObjectID) (now : Time) :
    Feed × State × List Call :=
  match findFeed s.feeds userID with
  | some feed => (feed, s, [Call.findFeed])
  | none =>
    let feed : Feed := { UserID := userID, Posts := [], UpdatedAt := now }
    (feed, { s with feeds := s.feeds ++ [feed] }, [Call.findFeed, Call.insertFeed])

/-- Lines 109-147: fetch the page, cache it, answer. -/
def fetchAndCache (s : State) (feed : Feed) (key : String) (page limit skip : Int)
    (env : Env) (calls : List Call) : Outcome :=
  match findPostsByIDs s.posts feed.Posts skip limit with
  | none => ⟨.error 500 "Failed to retrieve posts", s, calls ++ [Call.findPosts]⟩
  | some posts =>
    let cache1 := if env.cacheSetOk then cacheSet s.cache key posts env.cacheSetAt else s.cache
    ⟨.ok posts page limit, { s with cache := cache1 }, calls ++ [Call.findPosts, Call.cacheSet]⟩

/-- Lines 69-147: the path taken when the cache has no live entry. -/
def getFeedMiss (s : State) (userID : ObjectID) (page limit : Int) (env : Env) : Outcome :=
  let skip := wrapInt64 (wrapInt64 (page - 1) * limit)
  let key := cacheKey userID page limit
  match findUser s.users userID with
  | none => ⟨.error 404 "User not found", s, [Call.cacheGet, Call.findUser]⟩
  | some user =>
    match loadOrCreateFeed s userID env.feedCreatedAt with
    | (feed, s1, calls1) =>
      let calls := [Call.cacheGet, Call.findUser] ++ calls1
      if user.LastFeedUpdate < feed.UpdatedAt then
        match updateFeed s1 userID feed env.mergeAt with
        | none => ⟨.error 500 "Failed to update feed", s1, calls ++ [Call.updateFeed]⟩
        | some (s2, feed2) =>
          fetchAndCache s2 feed2 key page limit skip env (calls ++ [Call.updateFeed])
      else
        fetchAndCache s1 feed key page limit skip env calls

/-- Handler `GetFeed`. -/
def GetFeed (s : State) (req : Request) (env : Env) : Outcome :=
  match req.id with
  | none => ⟨.error 400 "Invalid user ID", s, []⟩
  | some userID =>
    match req.page with
    | none => ⟨.error 400 "Invalid page number", s, []⟩
    | some page =>
      match req.limit with
      | none => ⟨.error 400 "Invalid limit number", s, []⟩
      | some limit =>
        match cacheGet s.cache (cacheKey userID page limit) env.cacheGetAt with
        | some posts => ⟨.ok posts page limit, s, [Call.cacheGet]⟩
        | none => getFeedMiss s userID page limit env

/-! ## Other handlers, as far as the claims need them -/

/-- The store's `DeleteOne`: the first document matching `p` is removed. -/
def deleteOne {α : Type} (p : α → Bool) : List α → List α
  | [] => []
  | x :: xs => if p x then xs else x :: deleteOne p xs

/-- Handler `DeleteUser` (User.go, lines 92-106) on a well-formed id: its effect on
the state. Only the user document goes; feed and cache are left as they are. -/
def DeleteUser (s : State) (id : ObjectID) : State :=
  { s with users := deleteOne (fun u : User => u.ID = id) s.users }

/-- Update operator `$addToSet` on an id array: appended unless already present. -/
def addToSet (xs : List ObjectID) (x : ObjectID) : List ObjectID :=
  if x ∈ xs then xs else xs ++ [x]

/-- Update operator `$pull` on an id array: every occurrence is removed. -/
def pull (xs : List ObjectID) (x : ObjectID) : List ObjectID :=
  xs.filter (fun y => y ≠ x)

/-- Handler `CreatePost` (Post.go, lines 20-40): its effect on the state. `id` is
the parsed path id (a parse error is ignored there and leaves the zero id), `body`
the bound JSON (`none`: binding failed, answer 400), `fresh` the `_id` the driver
generates when the body carries none; the insert is refused on a duplicate `_id`. -/
def CreatePost (s : State) (id : Option ObjectID) (body : Option Post) (fresh : ObjectID)
    (now : Time) : State :=
  match body with
  | none => s
  | some post =>
    let post1 : Post := { post with CreatedAt := now, LikeCount := 0, UserID := id.getD 0 }
    let post2 : Post := if post1.ID = 0 then { post1 with ID := fresh } else post1
    if s.posts.any (fun q => q.ID = post2.ID) then s
    else { s with posts := s.posts ++ [post2] }

/-- Handler `FollowUser` (User.go, lines 124-167): its effect on the state. -/
def FollowUser (s : State) (followerID followeeID : Option ObjectID) : State :=
  match followerID, followeeID with
  | some follower, some followee =>
    let users1 := updateOne (fun u : User => u.ID = followee)
      (fun u => { u with Followers := addToSet u.Followers follower }) s.users
    let users2 := updateOne (fun u : User => u.ID = follower)
      (fun u => { u with Following := addToSet u.Following followee }) users1
    { s with users := users2 }
  | _, _ => s

/-- Handler `UnfollowUser` (User.go, lines 169-204): its effect on the state. -/
def UnfollowUser (s : State) (followerID followeeID : Option ObjectID) : State :=
  match followerID, followeeID with
  | some follower, some followee =>
    let users1 := updateOne (fun u : User => u.ID = follower)
      (fun u => { u with Following := pull u.Following followee }) s.users
    let users2 := updateOne (fun u : User => u.ID = followee)
      (fun u => { u with Followers := pull u.Followers follower }) users1
    { s with users := users2 }
  | _, _ => s

/-- Handler `SetCelebrityStatus` (User.go, lines 206-233): its effect on the state;
`status` is the bound JSON body (`none`: binding failed, answer 400). -/
def SetCelebrityStatus (s : State) (id : Option ObjectID) (status : Option Bool) : State :=
  match id, status with
  | some id, some flag =>
    let users1 := updateOne (fun u : User => u.ID = id)
      (fun u => { u with IsCelebrity := flag }) s.users
    { s with users := users1 }
  | _, _ => s

/-- The operations of a client session. -/
inductive Op where
  | getFeed (req : Request) (env : Env)
  | createPost (id : Option ObjectID) (body : Option Post) (fresh : ObjectID) (now : Time)
  | followUser (followerID followeeID : Option ObjectID)
  | unfollowUser (followerID followeeID : Option ObjectID)
  | setCelebrityStatus (id : Option ObjectID) (status : Option Bool)

/-- The state after one operation. -/
def Op.apply (s : State) : Op → State
  | .getFeed req env => (GetFeed s req env).state
  | .createPost id body fresh now => CreatePost s id body fresh now
  | .followUser followerID followeeID => FollowUser s followerID followeeID
  | .unfollowUser followerID followeeID => UnfollowUser s followerID followeeID
  | .setCelebrityStatus id status => SetCelebrityStatus s id status

/-- The state after a sequence of operations. -/
def runOps (s : State) (ops : List Op) : State :=
  ops.foldl Op.apply s

/-- The user's stored feed is `feed` and the user's stored watermark equals its
timestamp. -/
def Settled (s : State) (userID : ObjectID) (feed : Feed) : Prop :=
  findFeed s.feeds userID = some feed ∧
  (findUser s.users userID).map (fun u => u.LastFeedUpdate) = some feed.UpdatedAt

/-- One thing that happens between two requests: either the durable stores are
changed in any way at all (by any of the other handlers), or GetFeed is served. -/
inductive Step where
  | stores (users : List User) (posts : List Post) (feeds : List Feed)
  | getFeed (req : Request) (env : Env)

/-- The state after a step. -/
def Step.apply (s : State) : Step → State
  | .stores users posts feeds => { s with users := users, posts := posts, feeds := feeds }
  | .getFeed req env => (GetFeed s req env).state

/-- The state after a sequence of steps. -/
def runSteps (s : State) (steps : List Step) : State :=
  steps.foldl Step.apply s

/-- The step reads the cache, if it reads it, before instant `t`. -/
def Step.readsBefore (t : Time) : Step → Prop
  | .stores _ _ _ => True
  | .getFeed _ env => env.cacheGetAt < t

instance (t : Time) (st : Step) : Decidable (st.readsBefore t) := by
  cases st <;> unfold Step.readsBefore <;> infer_instance

/-! ## Properties of a feed's id list -/

/-- The creation instant of the stored post an id names, if it names one. -/
def createdAtOf (posts : List Post) (id : ObjectID) : Option Time :=
  (posts.find? (fun p => p.ID = id)).map (fun p => p.CreatedAt)

/-- The creation instants of the posts named by an id list, in list order. -/
def feedTimes (posts : List Post) (ids : List ObjectID) : List Time :=
  ids.filterMap (createdAtOf posts)

/-- An id list is newest-first when the creation instants it names never increase. -/
def NewestFirst (posts : List Post) (ids : List ObjectID) : Prop :=
  (feedTimes posts ids).Pairwise (fun a b => b ≤ a)

instance (posts : List Post) (ids : List ObjectID) : Decidable (NewestFirst posts ids) := by
  unfold NewestFirst
  infer_instance

/-- The number of posts of `l` (in store order) that the newest-first order puts
before the first occurrence of `p`: the posts created later, and the posts created at
the same instant that stand earlier in `l`. -/
def rankIn (p : Post) : List Post → Nat
  | [] => 0
  | q :: l =>
    if q = p then l.countP (fun x => p.CreatedAt < x.CreatedAt)
    else (if p.CreatedAt ≤ q.CreatedAt then 1 else 0) + rankIn p l

/-- No id in the list names a stored post whose author loads as a celebrity. -/
def NoCelebrityPost (s : State) (ids : List ObjectID) : Prop :=
  ∀ p ∈ s.posts, p.ID ∈ ids → ∀ a, findUser s.users p.UserID = some a → a.IsCelebrity = false

instance (s : State) (ids : List ObjectID) : Decidable (NoCelebrityPost s ids) :=
  decidable_of_iff
    (∀ p ∈ s.posts, p.ID ∈ ids → ∀ a ∈ findUser s.users p.UserID, a.IsCelebrity = false)
    (by unfold NoCelebrityPost; simp [Option.mem_def])

/-- The id is followed by `user`, loads, and is not flagged celebrity. -/
def isOrdinaryFollowee (s : State) (user : User) (id : ObjectID) : Bool :=
  decide (id ∈ user.Following) &&
    (match findUser s.users id with
     | some followee => !followee.IsCelebrity
     | none => false)

/-- The stored posts a merge for `user` is expected to pick up: written by an
ordinary followee that loads, and created strictly after the user's watermark. -/
def mergeCandidates (s : State) (user : User) : List Post :=
  s.posts.filter (fun p =>
    isOrdinaryFollowee s user p.UserID && decide (user.LastFeedUpdate < p.CreatedAt))

/-! ## Example data -/

/-- Follower A: follows B, watermark at instant 100. -/
def userA : User :=
  { ID := 1, Username := "a", Bio := "", Following := [2], Followers := [],
    IsCelebrity := false, CreatedAt := 10, LastFeedUpdate := 100 }

/-- Followee B, an ordinary account. -/
def userB : User :=
  { ID := 2, Username := "b", Bio := "", Following := [], Followers := [1],
    IsCelebrity := false, CreatedAt := 10, LastFeedUpdate := 0 }

/-- A post of B published at instant 200. -/
def postB : Post :=
  { ID := 10, UserID := 2, Content := "hello", LikeCount := 0, Tags := [], CreatedAt := 200 }

/-- A follows B, B has published once, A has no feed yet, the cache is empty. -/
def stFresh : State :=
  { users := [userA, userB], posts := [postB], feeds := [], cache := [] }

/-- As stFresh, but A already has a feed naming B's post, in step with A's watermark. -/
def stSettled : State :=
  { users := [userA, userB], posts := [postB],
    feeds := [{ UserID := 1, Posts := [10], UpdatedAt := 100 }], cache := [] }

/-- A's feed already names B's post and carries a later timestamp than A's
watermark, as after A's record was deleted and created again with the same id
(the feed document survives the deletion). -/
def stRewound : State :=
  { users := [userA, userB], posts := [postB],
    feeds := [{ UserID := 1, Posts := [10], UpdatedAt := 300 }], cache := [] }

/-- A third account, not followed by A. -/
def userC : User :=
  { ID := 3, Username := "c", Bio := "", Following := [], Followers := [],
    IsCelebrity := false, CreatedAt := 10, LastFeedUpdate := 0 }

/-- A post of C published at instant 250, after B's post. -/
def postC : Post :=
  { ID := 11, UserID := 3, Content := "later", LikeCount := 0, Tags := [], CreatedAt := 250 }

/-- A's feed names C's newer post only, while A's watermark predates B's older post. -/
def stOlderMissing : State :=
  { users := [userA, userB, userC], posts := [postB, postC],
    feeds := [{ UserID := 1, Posts := [11], UpdatedAt := 300 }], cache := [] }

/-- B after SetCelebrityStatus turned the flag on. -/
def userBCelebrity : User := { userB with IsCelebrity := true }

/-- A's feed names B's post, merged while B was ordinary; B is a celebrity now. -/
def stPromoted : State :=
  { users := [userA, userBCelebrity], posts := [postB],
    feeds := [{ UserID := 1, Posts := [10], UpdatedAt := 300 }], cache := [] }

/-- B's post is newer than A's watermark, but A's feed carries the same
timestamp as the watermark, as after an earlier merge at instant 100. -/
def stQuiet : State :=
  { users := [userA, userB], posts := [postB],
    feeds := [{ UserID := 1, Posts := [], UpdatedAt := 100 }], cache := [] }

/-- The request `GET /feeds/<A>?page=1&limit=10`. -/
def reqA : Request := { id := some 1, page := some 1, limit := some 10 }

/-- A was served once from stFresh (the page is cached) and then deleted. -/
def stDeleted : State :=
  DeleteUser (GetFeed stFresh reqA
    { cacheGetAt := 300, feedCreatedAt := 301, mergeAt := 302, cacheSetAt := 303,
      cacheSetOk := true }).state 1

/-- A later request, well inside the ten minutes after instant 303. -/
def envNext : Env :=
  { cacheGetAt := 1000, feedCreatedAt := 1001, mergeAt := 1002, cacheSetAt := 1003,
    cacheSetOk := true }

/-- A follower whose list names id 9, which resolves to no user, before B. -/
def userD : User :=
  { ID := 1, Username := "d", Bio := "", Following := [9, 2], Followers := [],
    IsCelebrity := false, CreatedAt := 10, LastFeedUpdate := 100 }

/-- A post left behind by the vanished account 9. -/
def postGhost : Post :=
  { ID := 12, UserID := 9, Content := "gone", LikeCount := 0, Tags := [], CreatedAt := 220 }

/-- The records of userD and B, with B's post and the vanished account's post. -/
def stDangling : State :=
  { users := [userD, userB], posts := [postGhost, postB],
    feeds := [{ UserID := 1, Posts := [], UpdatedAt := 300 }], cache := [] }

/-- The body of a new post as a client sends it: no id, server-set fields zero. -/
def postB2 : Post :=
  { ID := 0, UserID := 0, Content := "again", LikeCount := 3, Tags := [], CreatedAt := 0 }

/-- A follower of B and of the account 3, watermark at instant 100. -/
def userE : User :=
  { ID := 1, Username := "e", Bio := "", Following := [2, 3], Followers := [],
    IsCelebrity := false, CreatedAt := 10, LastFeedUpdate := 100 }

/-- The account 3, flagged celebrity. -/
def userStar : User :=
  { ID := 3, Username := "star", Bio := "", Following := [], Followers := [1],
    IsCelebrity := true, CreatedAt := 10, LastFeedUpdate := 0 }

/-- An early post of B, instant 40. -/
def post8 : Post :=
  { ID := 8, UserID := 2, Content := "one", LikeCount := 0, Tags := [], CreatedAt := 40 }

/-- A post of B, instant 50. -/
def post9 : Post :=
  { ID := 9, UserID := 2, Content := "two", LikeCount := 0, Tags := [], CreatedAt := 50 }

/-- A post of B after the watermark of userE, instant 150. -/
def post14 : Post :=
  { ID := 14, UserID := 2, Content := "three", LikeCount := 0, Tags := [], CreatedAt := 150 }

/-- A post of the celebrity after the watermark of userE, instant 250. -/
def postStar : Post :=
  { ID := 15, UserID := 3, Content := "shine", LikeCount := 0, Tags := [], CreatedAt := 250 }

/-- The feed of userE before the merge: B's two early posts, newest first. -/
def feedBusy : Feed := { UserID := 1, Posts := [9, 8], UpdatedAt := 300 }

/-- The feed of userE after the merge at instant 400. -/
def feedBusyMerged : Feed := { UserID := 1, Posts := [10, 14, 9, 8], UpdatedAt := 400 }

/-- The follower userE with ordinary B and the celebrity; the stored feed names B's
two posts older than the watermark, B has two newer posts, the celebrity one. -/
def stBusy : State :=
  { users := [userE, userB, userStar], posts := [post8, post9, post14, postB, postStar],
    feeds := [feedBusy], cache := [] }

/-- State stBusy after updateFeed for userE at instant 400. -/
def stBusyMerged : State :=
  { users := [{ userE with LastFeedUpdate := 400 }, userB, userStar],
    posts := [post8, post9, post14, postB, postStar],
    feeds := [feedBusyMerged], cache := [] }

/-- Ten further posts of B, all published at instant 250. -/
def tenNewer : List Post :=
  ([20, 21, 22, 23, 24, 25, 26, 27, 28, 29] : List ObjectID).map (fun k =>
    { ID := k, UserID := 2, Content := "more", LikeCount := 0, Tags := [], CreatedAt := 250 })

/-- A follows B, A has no feed yet, and B has published ten posts after postB. -/
def stCrowded : State :=
  { users := [userA, userB], posts := postB :: tenNewer, feeds := [], cache := [] }

/-- A request served a little after instant 300, the cache write succeeding. -/
def envLate : Env :=
  { cacheGetAt := 300, feedCreatedAt := 301, mergeAt := 302, cacheSetAt := 303,
    cacheSetOk := true }

/-! ## Supporting lemmas -/

theorem find?_updateOne {α : Type} (p : α → Bool) (f : α → α) (hf : ∀ x, p (f x) = p x)
    (xs : List α) : (updateOne p f xs).find? p = (xs.find? p).map f := by
  induction xs with
  | nil => rfl
  | cons x xs ih =>
    by_cases hx : p x = true
    · simp [updateOne, hx, hf]
    · simp [updateOne, hx, ih]

theorem fetchAndCache_users (s : State) (feed : Feed) (key : String) (page limit skip : Int)
    (env : Env) (calls : List Call) :
    (fetchAndCache s feed key page limit skip env calls).state.users = s.users ∧
    (fetchAndCache s feed key page limit skip env calls).state.feeds = s.feeds ∧
    (fetchAndCache s feed key page limit skip env calls).state.posts = s.posts := by
  unfold fetchAndCache
  cases findPostsByIDs s.posts feed.Posts skip limit <;> simp

theorem fetchAndCache_calls (s : State) (feed : Feed) (key : String) (page limit skip : Int)
    (env : Env) (calls : List Call) (c : Call) (hc : c ≠ Call.findPosts) (hc2 : c ≠ Call.cacheSet) :
    c ∈ (fetchAndCache s feed key page limit skip env calls).calls ↔ c ∈ calls := by
  unfold fetchAndCache
  cases findPostsByIDs s.posts feed.Posts skip limit <;> simp [hc, hc2]

theorem loadOrCreateFeed_calls (s : State) (userID : ObjectID) (now : Time) :
    Call.updateFeed ∉ (loadOrCreateFeed s userID now).2.2 := by
  unfold loadOrCreateFeed
  cases findFeed s.feeds userID <;> simp

theorem loadOrCreateFeed_fst (s : State) (userID : ObjectID) (now : Time) :
    (loadOrCreateFeed s userID now).1 =
      (findFeed s.feeds userID).getD { UserID := userID, Posts := [], UpdatedAt := now } := by
  unfold loadOrCreateFeed
  cases findFeed s.feeds userID <;> simp

theorem loadOrCreateFeed_state (s : State) (userID : ObjectID) (now : Time) :
    (loadOrCreateFeed s userID now).2.1.users = s.users ∧
    (loadOrCreateFeed s userID now).2.1.posts = s.posts ∧
    (loadOrCreateFeed s userID now).2.1.cache = s.cache ∧
    findFeed (loadOrCreateFeed s userID now).2.1.feeds userID =
      some (loadOrCreateFeed s userID now).1 := by
  unfold loadOrCreateFeed
  cases h : findFeed s.feeds userID with
  | some f => simp [h]
  | none =>
    simp only [findFeed] at h
    simp [findFeed, List.find?_append, h]

theorem wrapInt64_of_inRange (x : Int) (hlo : -(2 ^ 63) ≤ x) (hhi : x < 2 ^ 63) :
    wrapInt64 x = x := by
  unfold wrapInt64
  rw [Int.emod_eq_of_lt (by omega) (by omega)]
  omega

theorem findFeed_updateFeed (s s1 : State) (userID : ObjectID) (feed feed1 : Feed) (now : Time)
    (h : updateFeed s userID feed now = some (s1, feed1)) :
    findFeed s1.feeds userID =
      (findFeed s.feeds userID).map
        (fun f => { f with Posts := feed1.Posts, UpdatedAt := feed1.UpdatedAt }) := by
  unfold updateFeed at h
  cases hu : findUser s.users userID with
  | none => simp [hu] at h
  | some user =>
    simp only [hu, Option.some.injEq, Prod.mk.injEq] at h
    obtain ⟨hs, hf⟩ := h
    subst hs hf
    simp only [findFeed]
    apply find?_updateOne
    intro x
    rfl

theorem updateFeed_isSome_iff (s : State) (userID : ObjectID) (feed : Feed) (now : Time) :
    (updateFeed s userID feed now).isSome ↔ (findUser s.users userID).isSome := by
  unfold updateFeed
  cases findUser s.users userID <;> simp

theorem updateFeed_posts (s s1 : State) (userID : ObjectID) (feed feed1 : Feed) (now : Time)
    (h : updateFeed s userID feed now = some (s1, feed1)) :
    s1.posts = s.posts ∧ s1.cache = s.cache ∧ feed1.UserID = feed.UserID ∧
      feed1.UpdatedAt = now := by
  unfold updateFeed at h
  cases hu : findUser s.users userID with
  | none => simp [hu] at h
  | some user =>
    simp only [hu, Option.some.injEq, Prod.mk.injEq] at h
    obtain ⟨hs, hf⟩ := h
    subst hs hf
    simp

theorem mem_newPostIDs (s : State) (user : User) (id : ObjectID) :
    id ∈ newPostIDs s user ↔
      ∃ p ∈ s.posts, p.UserID ∈ followingIDs s.users user ∧
        user.LastFeedUpdate < p.CreatedAt ∧ p.ID = id := by
  unfold newPostIDs findPostsByAuthorsSince sortByCreatedAtDesc
  simp only [List.mem_map, List.mem_insertionSort, List.mem_filter, decide_eq_true_eq]
  constructor
  · rintro ⟨p, ⟨hp, ha, ht⟩, rfl⟩
    exact ⟨p, hp, ha, ht, rfl⟩
  · rintro ⟨p, hp, ha, ht, rfl⟩
    exact ⟨p, ⟨hp, ha, ht⟩, rfl⟩

theorem nodup_newPostIDs (s : State) (user : User)
    (hids : (s.posts.map (fun p => p.ID)).Nodup) : (newPostIDs s user).Nodup := by
  unfold newPostIDs findPostsByAuthorsSince sortByCreatedAtDesc
  refine (((List.perm_insertionSort _ _).map _).nodup_iff).mpr ?_
  exact List.Nodup.sublist ((List.filter_sublist _).map _) hids

theorem eq_of_ID_eq (posts : List Post) (hids : (posts.map (fun p => p.ID)).Nodup)
    (p q : Post) (hp : p ∈ posts) (hq : q ∈ posts) (h : p.ID = q.ID) : p = q :=
  List.inj_on_of_nodup_map hids hp hq h

theorem createdAtOf_of_mem (posts : List Post) (hids : (posts.map (fun p => p.ID)).Nodup)
    (p : Post) (hp : p ∈ posts) : createdAtOf posts p.ID = some p.CreatedAt := by
  unfold createdAtOf
  cases hf : posts.find? (fun q => q.ID = p.ID) with
  | none =>
    have := List.find?_eq_none.mp hf p hp
    simp at this
  | some q =>
    have hq := List.mem_of_find?_eq_some hf
    have hid : q.ID = p.ID := by simpa using List.find?_some hf
    rw [eq_of_ID_eq posts hids q p hq hp hid]
    rfl

theorem createdAtOf_eq_some (posts : List Post) (id : ObjectID) (t : Time)
    (h : createdAtOf posts id = some t) : ∃ p ∈ posts, p.ID = id ∧ p.CreatedAt = t := by
  unfold createdAtOf at h
  cases hf : posts.find? (fun q => q.ID = id) with
  | none => simp [hf] at h
  | some q =>
    rw [hf] at h
    refine ⟨q, List.mem_of_find?_eq_some hf, by simpa using List.find?_some hf, ?_⟩
    simpa using h

theorem feedTimes_map_ID (posts : List Post) (hids : (posts.map (fun p => p.ID)).Nodup)
    (l : List Post) (hl : ∀ p ∈ l, p ∈ posts) :
    feedTimes posts (l.map (fun p => p.ID)) = l.map (fun p => p.CreatedAt) := by
  induction l with
  | nil => rfl
  | cons a l ih =>
    have ha := createdAtOf_of_mem posts hids a (hl a (List.mem_cons_self _ _))
    have ih1 := ih (fun p hp => hl p (List.mem_cons_of_mem _ hp))
    unfold feedTimes at ih1 ⊢
    simp only [List.map_cons, List.filterMap_cons, ha, ih1]

theorem sortByCreatedAtDesc_sorted (ps : List Post) :
    (sortByCreatedAtDesc ps).Pairwise (fun a b => b.CreatedAt ≤ a.CreatedAt) := by
  haveI : IsTotal Post (fun a b => b.CreatedAt ≤ a.CreatedAt) :=
    ⟨fun a b => Nat.le_total b.CreatedAt a.CreatedAt⟩
  haveI : IsTrans Post (fun a b => b.CreatedAt ≤ a.CreatedAt) :=
    ⟨fun a b c hab hbc => Nat.le_trans hbc hab⟩
  exact List.sorted_insertionSort _ ps

theorem findUser_map_updateOne {β : Type} (g : User → β) (p : User → Bool) (f : User → User)
    (hID : ∀ u, (f u).ID = u.ID) (hg : ∀ u, g (f u) = g u) (users : List User)
    (id : ObjectID) :
    (findUser (updateOne p f users) id).map g = (findUser users id).map g := by
  unfold findUser
  induction users with
  | nil => rfl
  | cons u us ih =>
    by_cases hp : p u = true
    · by_cases hu : u.ID = id
      · simp [updateOne, hp, hu, hID, hg]
      · simp [updateOne, hp, hu, hID]
    · by_cases hu : u.ID = id
      · simp [updateOne, hp, hu]
      · simpa [updateOne, hp, hu] using ih

theorem updateFeed_celebrity_flags (s s1 : State) (userID : ObjectID) (feed feed1 : Feed)
    (now : Time) (h : updateFeed s userID feed now = some (s1, feed1)) (id : ObjectID) :
    (findUser s1.users id).map (fun u => u.IsCelebrity) =
      (findUser s.users id).map (fun u => u.IsCelebrity) := by
  unfold updateFeed at h
  cases hu : findUser s.users userID with
  | none => simp [hu] at h
  | some user =>
    simp only [hu, Option.some.injEq, Prod.mk.injEq] at h
    obtain ⟨hs, -⟩ := h
    subst hs
    apply findUser_map_updateOne <;> intro u <;> rfl

theorem updateFeed_shape (s s1 : State) (userID : ObjectID) (feed feed1 : Feed)
    (now : Time) (h : updateFeed s userID feed now = some (s1, feed1)) :
    ∃ user, findUser s.users userID = some user ∧
      feed1.Posts = newPostIDs s user ++ feed.Posts ∧ feed1.UpdatedAt = now := by
  unfold updateFeed at h
  cases hu : findUser s.users userID with
  | none => simp [hu] at h
  | some user =>
    simp only [hu, Option.some.injEq, Prod.mk.injEq] at h
    obtain ⟨-, hf⟩ := h
    exact ⟨user, rfl, by rw [← hf], by rw [← hf]⟩

theorem cacheGet_of_find? (cache : List CacheEntry) (key : String) (value : List Post)
    (exp now : Time)
    (h : cache.find? (fun e => e.key = key) = some ⟨key, value, exp⟩) (hnow : now < exp) :
    cacheGet cache key now = some value := by
  unfold cacheGet
  simp [h, hnow]

theorem find?_cacheSet_self (cache : List CacheEntry) (key : String) (value : List Post)
    (now : Time) :
    (cacheSet cache key value now).find? (fun e => e.key = key) =
      some ⟨key, value, now + cacheTTL⟩ := by
  simp [cacheSet]

theorem find?_cacheSet_other (cache : List CacheEntry) (key key1 : String)
    (value : List Post) (now : Time) (hne : key1 ≠ key) :
    (cacheSet cache key1 value now).find? (fun e => e.key = key) =
      cache.find? (fun e => e.key = key) := by
  unfold cacheSet
  rw [List.find?_cons_of_neg _ (by simpa using hne), List.find?_filter]
  congr 1
  funext a
  by_cases ha : a.key = key
  · have : ¬ key = key1 := fun h => hne h.symm
    simp [ha, this]
  · simp [ha]

theorem fetchAndCache_cache (s : State) (feed : Feed) (key : String) (page limit skip : Int)
    (env : Env) (calls : List Call) :
    (fetchAndCache s feed key page limit skip env calls).state.cache = s.cache ∨
    ∃ posts, (fetchAndCache s feed key page limit skip env calls).state.cache =
      cacheSet s.cache key posts env.cacheSetAt := by
  unfold fetchAndCache
  cases findPostsByIDs s.posts feed.Posts skip limit with
  | none => exact Or.inl rfl
  | some posts =>
    cases hset : env.cacheSetOk with
    | false => left; simp [hset]
    | true => right; exact ⟨posts, by simp [hset]⟩

theorem fetchAndCache_ok (s : State) (feed : Feed) (key : String) (page limit skip : Int)
    (env : Env) (calls : List Call) (posts : List Post) (page1 limit1 : Int)
    (hset : env.cacheSetOk = true)
    (hok : (fetchAndCache s feed key page limit skip env calls).resp = .ok posts page1 limit1) :
    page1 = page ∧ limit1 = limit ∧
    (fetchAndCache s feed key page limit skip env calls).state.cache =
      cacheSet s.cache key posts env.cacheSetAt := by
  unfold fetchAndCache at hok ⊢
  cases hq : findPostsByIDs s.posts feed.Posts skip limit with
  | none => simp [hq] at hok
  | some ps =>
    simp only [hq, Response.ok.injEq] at hok
    obtain ⟨h1, h2, h3⟩ := hok
    simp [hset, h1, h2, h3]

theorem getFeedMiss_cache (s : State) (userID : ObjectID) (page limit : Int) (env : Env) :
    (getFeedMiss s userID page limit env).state.cache = s.cache ∨
    ∃ posts, (getFeedMiss s userID page limit env).state.cache =
      cacheSet s.cache (cacheKey userID page limit) posts env.cacheSetAt := by
  have hst := loadOrCreateFeed_state s userID env.feedCreatedAt
  unfold getFeedMiss
  cases findUser s.users userID with
  | none => exact Or.inl rfl
  | some user =>
    simp only
    rcases hlc : loadOrCreateFeed s userID env.feedCreatedAt with ⟨feed, s1, calls1⟩
    rw [hlc] at hst
    simp only at hst ⊢
    split
    · cases hup : updateFeed s1 userID feed env.mergeAt with
      | none => exact Or.inl hst.2.2.1
      | some r =>
        rcases r with ⟨s2, feed2⟩
        have hc := (updateFeed_posts s1 s2 userID feed feed2 env.mergeAt hup).2.1
        simp only
        rw [← hst.2.2.1, ← hc]
        exact fetchAndCache_cache _ _ _ _ _ _ _ _
    · rw [← hst.2.2.1]
      exact fetchAndCache_cache _ _ _ _ _ _ _ _

theorem getFeedMiss_ok (s : State) (userID : ObjectID) (page limit : Int) (env : Env)
    (posts : List Post) (page1 limit1 : Int) (hset : env.cacheSetOk = true)
    (hok : (getFeedMiss s userID page limit env).resp = .ok posts page1 limit1) :
    page1 = page ∧ limit1 = limit ∧
    (getFeedMiss s userID page limit env).state.cache =
      cacheSet s.cache (cacheKey userID page limit) posts env.cacheSetAt := by
  have hst := loadOrCreateFeed_state s userID env.feedCreatedAt
  unfold getFeedMiss at hok ⊢
  cases hu : findUser s.users userID with
  | none => simp [hu] at hok
  | some user =>
    simp only [hu] at hok ⊢
    rcases hlc : loadOrCreateFeed s userID env.feedCreatedAt with ⟨feed, s1, calls1⟩
    rw [hlc] at hst hok
    simp only at hst hok ⊢
    by_cases hstale : user.LastFeedUpdate < feed.UpdatedAt
    · simp only [hstale, if_true] at hok ⊢
      cases hup : updateFeed s1 userID feed env.mergeAt with
      | none => simp [hup] at hok
      | some r =>
        rcases r with ⟨s2, feed2⟩
        have hc := (updateFeed_posts s1 s2 userID feed feed2 env.mergeAt hup).2.1
        simp only [hup] at hok ⊢
        rw [← hst.2.2.1, ← hc]
        exact fetchAndCache_ok _ _ _ _ _ _ _ _ _ _ _ hset hok
    · simp only [hstale, if_false] at hok ⊢
      rw [← hst.2.2.1]
      exact fetchAndCache_ok _ _ _ _ _ _ _ _ _ _ _ hset hok

theorem step_keeps_entry (s : State) (st : Step) (key : String) (value : List Post)
    (exp : Time)
    (hlive : s.cache.find? (fun e => e.key = key) = some ⟨key, value, exp⟩)
    (hst : st.readsBefore exp) :
    (st.apply s).cache.find? (fun e => e.key = key) = some ⟨key, value, exp⟩ := by
  cases st with
  | stores users posts feeds => exact hlive
  | getFeed req env =>
    rcases req with ⟨id, page, limit⟩
    simp only [Step.apply]
    cases id with
    | none => simpa [GetFeed] using hlive
    | some userID =>
      cases page with
      | none => simpa [GetFeed] using hlive
      | some page =>
        cases limit with
        | none => simpa [GetFeed] using hlive
        | some limit =>
          simp only [GetFeed]
          cases hget : cacheGet s.cache (cacheKey userID page limit) env.cacheGetAt with
          | some posts => exact hlive
          | none =>
            simp only
            have hne : cacheKey userID page limit ≠ key := by
              intro heq
              rw [heq, cacheGet_of_find? s.cache key value exp env.cacheGetAt hlive hst] at hget
              exact Option.noConfusion hget
            rcases getFeedMiss_cache s userID page limit env with h | ⟨posts, h⟩
            · rw [h]; exact hlive
            · rw [h, find?_cacheSet_other _ _ _ _ _ hne]; exact hlive

theorem runSteps_keeps_entry (steps : List Step) (s : State) (key : String)
    (value : List Post) (exp : Time)
    (hlive : s.cache.find? (fun e => e.key = key) = some ⟨key, value, exp⟩)
    (hsteps : ∀ st ∈ steps, st.readsBefore exp) :
    (runSteps s steps).cache.find? (fun e => e.key = key) = some ⟨key, value, exp⟩ := by
  induction steps generalizing s with
  | nil => exact hlive
  | cons st rest ih =>
    unfold runSteps
    rw [List.foldl_cons]
    exact ih (st.apply s)
      (step_keeps_entry s st key value exp hlive (hsteps st (List.mem_cons_self _ _)))
      (fun st1 h1 => hsteps st1 (List.mem_cons_of_mem _ h1))

theorem orderedInsert_sorted_split (p : Post) : ∀ (l : List Post),
    l.Pairwise (fun a b => b.CreatedAt ≤ a.CreatedAt) →
    ∃ pre post, l.orderedInsert (fun a b => b.CreatedAt ≤ a.CreatedAt) p = pre ++ p :: post ∧
      pre.length = l.countP (fun x => p.CreatedAt < x.CreatedAt) ∧
      ∀ b ∈ pre, p.CreatedAt < b.CreatedAt := by
  intro l
  induction l with
  | nil => intro _; exact ⟨[], [], rfl, rfl, fun b hb => absurd hb (List.not_mem_nil b)⟩
  | cons b l ih =>
    intro hs
    rw [List.pairwise_cons] at hs
    by_cases hb : b.CreatedAt ≤ p.CreatedAt
    · refine ⟨[], b :: l, ?_, ?_, fun x hx => absurd hx (List.not_mem_nil x)⟩
      · simp [List.orderedInsert, hb]
      · symm
        rw [List.length_nil, List.countP_eq_zero]
        intro x hx
        rw [List.mem_cons] at hx
        have hxb : x.CreatedAt ≤ p.CreatedAt := by
          rcases hx with h | h
          · rw [h]; exact hb
          · exact Nat.le_trans (hs.1 x h) hb
        simpa using hxb
    · obtain ⟨pre, post, h1, h2, h3⟩ := ih hs.2
      refine ⟨b :: pre, post, ?_, ?_, ?_⟩
      · simp [List.orderedInsert, hb, h1]
      · rw [List.length_cons, h2, List.countP_cons]
        simp [Nat.lt_of_not_le hb]
      · intro x hx
        rw [List.mem_cons] at hx
        rcases hx with h | h
        · rw [h]; exact Nat.lt_of_not_le hb
        · exact h3 x h

theorem orderedInsert_before (a p : Post) (hap : p.CreatedAt ≤ a.CreatedAt) :
    ∀ (pre post : List Post),
      (pre ++ p :: post).orderedInsert (fun a b => b.CreatedAt ≤ a.CreatedAt) a =
        pre.orderedInsert (fun a b => b.CreatedAt ≤ a.CreatedAt) a ++ p :: post := by
  intro pre
  induction pre with
  | nil => intro post; simp [List.orderedInsert, hap]
  | cons b pre ih =>
    intro post
    by_cases hb : b.CreatedAt ≤ a.CreatedAt
    · simp [List.orderedInsert, hb]
    · simp [List.orderedInsert, hb, ih post]

theorem orderedInsert_after (a p : Post) (hap : ¬ p.CreatedAt ≤ a.CreatedAt) :
    ∀ (pre post : List Post), (∀ b ∈ pre, p.CreatedAt ≤ b.CreatedAt) →
      (pre ++ p :: post).orderedInsert (fun a b => b.CreatedAt ≤ a.CreatedAt) a =
        pre ++ p :: post.orderedInsert (fun a b => b.CreatedAt ≤ a.CreatedAt) a := by
  intro pre
  induction pre with
  | nil => intro post _; simp [List.orderedInsert, hap]
  | cons b pre ih =>
    intro post hpre
    have hb : ¬ b.CreatedAt ≤ a.CreatedAt :=
      fun h => hap (Nat.le_trans (hpre b (List.mem_cons_self _ _)) h)
    simp [List.orderedInsert, hb, ih post (fun x hx => hpre x (List.mem_cons_of_mem _ hx))]

theorem sort_split (p : Post) : ∀ (l : List Post), p ∈ l →
    ∃ pre post, sortByCreatedAtDesc l = pre ++ p :: post ∧ pre.length = rankIn p l ∧
      ∀ b ∈ pre, p.CreatedAt ≤ b.CreatedAt ∧ b ≠ p := by
  intro l
  induction l with
  | nil => intro h; exact absurd h (List.not_mem_nil p)
  | cons q l ih =>
    intro hp
    by_cases hq : q = p
    · subst hq
      obtain ⟨pre, post, h1, h2, h3⟩ :=
        orderedInsert_sorted_split q (sortByCreatedAtDesc l) (sortByCreatedAtDesc_sorted l)
      refine ⟨pre, post, h1, ?_, ?_⟩
      · rw [h2]
        simp only [rankIn, if_true]
        exact (List.perm_insertionSort _ l).countP_eq _
      · intro b hb
        have := h3 b hb
        refine ⟨Nat.le_of_lt this, ?_⟩
        intro hbq
        rw [hbq] at this
        exact Nat.lt_irrefl _ this
    · have hpl : p ∈ l := by
        rcases List.mem_cons.mp hp with h | h
        · exact absurd h.symm hq
        · exact h
      obtain ⟨pre, post, h1, h2, h3⟩ := ih hpl
      have hsort : sortByCreatedAtDesc (q :: l) =
          (sortByCreatedAtDesc l).orderedInsert (fun a b => b.CreatedAt ≤ a.CreatedAt) q := rfl
      rw [hsort, h1]
      by_cases hle : p.CreatedAt ≤ q.CreatedAt
      · refine ⟨pre.orderedInsert (fun a b => b.CreatedAt ≤ a.CreatedAt) q, post,
          orderedInsert_before q p hle pre post, ?_, ?_⟩
        · rw [List.orderedInsert_length, h2]
          simp only [rankIn, hq, if_false, hle, if_true]
          omega
        · intro b hb
          rw [List.mem_orderedInsert] at hb
          rcases hb with h | h
          · rw [h]; exact ⟨hle, hq⟩
          · exact h3 b h
      · refine ⟨pre, post.orderedInsert (fun a b => b.CreatedAt ≤ a.CreatedAt) q,
          orderedInsert_after q p hle pre post (fun b hb => (h3 b hb).1), ?_, h3⟩
        rw [h2]
        simp only [rankIn, hq, if_false, hle]
        omega

theorem mem_take_sort_iff (p : Post) (l : List Post) (hp : p ∈ l) (n : Nat) :
    p ∈ (sortByCreatedAtDesc l).take n ↔ rankIn p l < n := by
  obtain ⟨pre, post, h1, h2, h3⟩ := sort_split p l hp
  rw [h1, ← h2]
  constructor
  · intro hmem
    by_contra hn
    have hle : n ≤ pre.length := Nat.le_of_not_lt hn
    rw [List.take_append_of_le_length hle] at hmem
    exact (h3 p (List.mem_of_mem_take hmem)).2 rfl
  · intro hlt
    rw [List.take_append_eq_append_take]
    apply List.mem_append_right
    obtain ⟨k, hk⟩ : ∃ k, n - pre.length = k + 1 := ⟨n - pre.length - 1, by omega⟩
    rw [hk, List.take_succ_cons]
    exact List.mem_cons_self _ _

theorem fetchAndCache_firstPage (s : State) (feed : Feed) (key : String) (env : Env)
    (calls : List Call) :
    (fetchAndCache s feed key 1 10 (wrapInt64 (wrapInt64 (1 - 1) * 10)) env calls).resp =
      .ok ((sortByCreatedAtDesc (s.posts.filter (fun q => q.ID ∈ feed.Posts))).take 10) 1 10 := by
  have h0 : wrapInt64 (wrapInt64 (1 - 1) * 10) = 0 := by decide
  rw [h0]
  simp [fetchAndCache, findPostsByIDs, skipLimit]

theorem getFeed_stale_firstPage (s : State) (env : Env) (A : User)
    (hA : findUser s.users A.ID = some A)
    (hmiss : cacheGet s.cache (cacheKey A.ID 1 10) env.cacheGetAt = none)
    (hstale : A.LastFeedUpdate <
      ((findFeed s.feeds A.ID).getD
        { UserID := A.ID, Posts := [], UpdatedAt := env.feedCreatedAt }).UpdatedAt) :
    Call.updateFeed ∈ (GetFeed s ⟨some A.ID, some 1, some 10⟩ env).calls ∧
    (∃ feed, findFeed (GetFeed s ⟨some A.ID, some 1, some 10⟩ env).state.feeds A.ID
        = some feed ∧
      feed.Posts = newPostIDs s A ++ ((findFeed s.feeds A.ID).getD
        { UserID := A.ID, Posts := [], UpdatedAt := env.feedCreatedAt }).Posts) ∧
    (GetFeed s ⟨some A.ID, some 1, some 10⟩ env).resp =
      .ok ((sortByCreatedAtDesc (s.posts.filter (fun q => q.ID ∈ newPostIDs s A ++
        ((findFeed s.feeds A.ID).getD
          { UserID := A.ID, Posts := [], UpdatedAt := env.feedCreatedAt }).Posts))).take 10)
        1 10 := by
  have hfst := loadOrCreateFeed_fst s A.ID env.feedCreatedAt
  have hst := loadOrCreateFeed_state s A.ID env.feedCreatedAt
  rw [← hfst] at hstale ⊢
  have key : GetFeed s ⟨some A.ID, some 1, some 10⟩ env = getFeedMiss s A.ID 1 10 env := by
    simp [GetFeed, hmiss]
  rw [key]
  unfold getFeedMiss
  simp only [hA]
  rcases hlc : loadOrCreateFeed s A.ID env.feedCreatedAt with ⟨feed, s1, calls1⟩
  rw [hlc] at hst hstale
  simp only at hst hstale ⊢
  simp only [hstale, if_true]
  have hA1 : findUser s1.users A.ID = some A := by rw [hst.1]; exact hA
  have hnew : newPostIDs s1 A = newPostIDs s A := by
    unfold newPostIDs
    rw [hst.1, hst.2.1]
  cases hup : updateFeed s1 A.ID feed env.mergeAt with
  | none =>
    have := (updateFeed_isSome_iff s1 A.ID feed env.mergeAt).mpr (by simp [hA1])
    simp [hup] at this
  | some r =>
    rcases r with ⟨s2, feed2⟩
    simp only
    obtain ⟨user, hu, hposts, -⟩ := updateFeed_shape s1 s2 A.ID feed feed2 _ hup
    rw [hA1] at hu
    obtain rfl : A = user := Option.some.inj hu
    rw [hnew] at hposts
    have hx := updateFeed_posts s1 s2 A.ID feed feed2 env.mergeAt hup
    have hstored : findFeed s2.feeds A.ID = some feed2 := by
      rw [findFeed_updateFeed s1 s2 A.ID feed feed2 env.mergeAt hup, hst.2.2.2]
      simp only [Option.map_some']
      congr 1
      cases feed2
      simp_all
    refine ⟨?_, ⟨feed2, ?_, hposts⟩, ?_⟩
    · rw [fetchAndCache_calls _ _ _ _ _ _ _ _ _ (by decide) (by decide)]
      simp
    · rw [(fetchAndCache_users _ _ _ _ _ _ _ _).2.1]
      exact hstored
    · rw [fetchAndCache_firstPage, hx.1, hst.2.1, hposts]

/-! ## Claims -/

/-- C1. On the cache-miss path of GetFeed for an existing user, updateFeed is run
exactly when the user's LastFeedUpdate is strictly earlier than the UpdatedAt of
the feed just loaded (or just created); and when it is not earlier, no merge is
run, the users collection is untouched and the stored feed is still that feed. -/
theorem getFeed_merge_iff_stale (s : State) (req : Request) (env : Env)
    (userID : ObjectID) (page limit : Int) (user : User)
    (hid : req.id = some userID) (hpage : req.page = some page)
    (hlimit : req.limit = some limit)
    (hmiss : cacheGet s.cache (cacheKey userID page limit) env.cacheGetAt = none)
    (huser : findUser s.users userID = some user) :
    (Call.updateFeed ∈ (GetFeed s req env).calls ↔
      user.LastFeedUpdate <
        ((findFeed s.feeds userID).getD
          { UserID := userID, Posts := [], UpdatedAt := env.feedCreatedAt }).UpdatedAt) ∧
    (((findFeed s.feeds userID).getD
          { UserID := userID, Posts := [], UpdatedAt := env.feedCreatedAt }).UpdatedAt
        ≤ user.LastFeedUpdate →
      Call.updateFeed ∉ (GetFeed s req env).calls ∧
      (GetFeed s req env).state.users = s.users ∧
      findUser (GetFeed s req env).state.users userID = some user ∧
      findFeed (GetFeed s req env).state.feeds userID =
        some ((findFeed s.feeds userID).getD
          { UserID := userID, Posts := [], UpdatedAt := env.feedCreatedAt })) := by
  have hfst := loadOrCreateFeed_fst s userID env.feedCreatedAt
  have hst := loadOrCreateFeed_state s userID env.feedCreatedAt
  have hcl := loadOrCreateFeed_calls s userID env.feedCreatedAt
  rw [← hfst]
  have key : GetFeed s req env = getFeedMiss s userID page limit env := by
    simp [GetFeed, hid, hpage, hlimit, hmiss]
  rw [key]
  unfold getFeedMiss
  simp only [huser]
  rcases hlc : loadOrCreateFeed s userID env.feedCreatedAt with ⟨feed, s1, calls1⟩
  rw [hlc] at hst hcl
  simp only at hst hcl ⊢
  by_cases hstale : user.LastFeedUpdate < feed.UpdatedAt
  · simp only [hstale, if_true, true_iff]
    refine ⟨?_, fun h => absurd hstale (Nat.not_lt.mpr h)⟩
    cases updateFeed s1 userID feed env.mergeAt with
    | none => simp
    | some r =>
      rcases r with ⟨s2, feed2⟩
      simp only
      rw [fetchAndCache_calls _ _ _ _ _ _ _ _ _ (by decide) (by decide)]
      simp
  · simp only [hstale, if_false, false_iff]
    have hno : Call.updateFeed ∉
        (fetchAndCache s1 feed (cacheKey userID page limit) page limit
          (wrapInt64 (wrapInt64 (page - 1) * limit)) env
          ([Call.cacheGet, Call.findUser] ++ calls1)).calls := by
      rw [fetchAndCache_calls _ _ _ _ _ _ _ _ _ (by decide) (by decide)]
      simpa using hcl
    refine ⟨⟨fun h => hno h, False.elim⟩, fun _ => ⟨hno, ?_, ?_, ?_⟩⟩
    · rw [(fetchAndCache_users _ _ _ _ _ _ _ _).1]; exact hst.1
    · rw [(fetchAndCache_users _ _ _ _ _ _ _ _).1, hst.1]; exact huser
    · rw [(fetchAndCache_users _ _ _ _ _ _ _ _).2.1]; exact hst.2.2.2

/-- Witness for C1: in stSettled the watermark equals the feed's timestamp and
the request runs no merge. -/
theorem getFeed_merge_iff_stale_witness :
    (Call.updateFeed ∈ (GetFeed stSettled ⟨some 1, some 1, some 10⟩ envLate).calls ↔
      userA.LastFeedUpdate <
        ((findFeed stSettled.feeds 1).getD
          { UserID := 1, Posts := [], UpdatedAt := envLate.feedCreatedAt }).UpdatedAt) ∧
    (((findFeed stSettled.feeds 1).getD
          { UserID := 1, Posts := [], UpdatedAt := envLate.feedCreatedAt }).UpdatedAt
        ≤ userA.LastFeedUpdate →
      Call.updateFeed ∉ (GetFeed stSettled ⟨some 1, some 1, some 10⟩ envLate).calls ∧
      (GetFeed stSettled ⟨some 1, some 1, some 10⟩ envLate).state.users = stSettled.users ∧
      findUser (GetFeed stSettled ⟨some 1, some 1, some 10⟩ envLate).state.users 1
        = some userA ∧
      findFeed (GetFeed stSettled ⟨some 1, some 1, some 10⟩ envLate).state.feeds 1 =
        some ((findFeed stSettled.feeds 1).getD
          { UserID := 1, Posts := [], UpdatedAt := envLate.feedCreatedAt })) :=
  getFeed_merge_iff_stale stSettled ⟨some 1, some 1, some 10⟩ envLate 1 1 10 userA
    rfl rfl rfl (by decide) (by decide)

/-- C2, the part that holds: when `(page - 1) * limit` fits the 64-bit `int`, a
successful cache-miss GetFeed with page and limit at least 1 answers with the
positions `[skip, skip + limit)` of the stored posts named by the feed (as stored
after any merge), newest first. -/
theorem getFeed_page_of_no_overflow (s : State) (req : Request) (env : Env)
    (userID : ObjectID) (page limit : Int) (posts : List Post) (page1 limit1 : Int)
    (hid : req.id = some userID) (hpage : req.page = some page)
    (hlimit : req.limit = some limit)
    (hmiss : cacheGet s.cache (cacheKey userID page limit) env.cacheGetAt = none)
    (hp : 1 ≤ page) (hl : 1 ≤ limit) (hfit : (page - 1) * limit < 2 ^ 63)
    (hok : (GetFeed s req env).resp = .ok posts page1 limit1) :
    ∃ feed, findFeed (GetFeed s req env).state.feeds userID = some feed ∧
      posts = ((sortByCreatedAtDesc
          ((GetFeed s req env).state.posts.filter (fun p => p.ID ∈ feed.Posts))).drop
            ((page - 1) * limit).toNat).take limit.toNat ∧
      (posts.length : Int) ≤ limit ∧ ∀ p ∈ posts, p.ID ∈ feed.Posts := by
  have hst := loadOrCreateFeed_state s userID env.feedCreatedAt
  have hpl : 0 ≤ (page - 1) * limit := Int.mul_nonneg (by omega) (by omega)
  have hp1 : page - 1 ≤ (page - 1) * limit := by nlinarith
  have hskip : wrapInt64 (wrapInt64 (page - 1) * limit) = (page - 1) * limit := by
    rw [wrapInt64_of_inRange (page - 1) (by omega) (by omega)]
    exact wrapInt64_of_inRange _ (by omega) hfit
  have key : GetFeed s req env = getFeedMiss s userID page limit env := by
    simp [GetFeed, hid, hpage, hlimit, hmiss]
  rw [key] at hok ⊢
  have fin : ∀ (s0 : State) (feed : Feed) (calls : List Call),
      findFeed s0.feeds userID = some feed →
      (fetchAndCache s0 feed (cacheKey userID page limit) page limit
          ((page - 1) * limit) env calls).resp = .ok posts page1 limit1 →
      ∃ fd, findFeed (fetchAndCache s0 feed (cacheKey userID page limit) page limit
          ((page - 1) * limit) env calls).state.feeds userID = some fd ∧
        posts = ((sortByCreatedAtDesc
          ((fetchAndCache s0 feed (cacheKey userID page limit) page limit
            ((page - 1) * limit) env calls).state.posts.filter
              (fun p => p.ID ∈ fd.Posts))).drop ((page - 1) * limit).toNat).take limit.toNat ∧
        (posts.length : Int) ≤ limit ∧ ∀ p ∈ posts, p.ID ∈ fd.Posts := by
    intro s0 feed calls hfeed hresp
    obtain ⟨-, hfeeds, hposts⟩ :=
      fetchAndCache_users s0 feed (cacheKey userID page limit) page limit
        ((page - 1) * limit) env calls
    refine ⟨feed, by rw [hfeeds]; exact hfeed, ?_⟩
    rw [hposts]
    unfold fetchAndCache at hresp
    have hq : findPostsByIDs s0.posts feed.Posts ((page - 1) * limit) limit =
        some (((sortByCreatedAtDesc (s0.posts.filter (fun p => p.ID ∈ feed.Posts))).drop
          ((page - 1) * limit).toNat).take limit.toNat) := by
      unfold findPostsByIDs skipLimit
      rw [if_neg (by omega), if_neg (by omega), if_neg (fun h => absurd h.1 (by omega))]
      congr 2
      omega
    rw [hq] at hresp
    simp only [Response.ok.injEq] at hresp
    obtain ⟨hposts1, -, -⟩ := hresp
    refine ⟨hposts1.symm, ?_, ?_⟩
    · rw [← hposts1, List.length_take]
      have : (limit.toNat : Int) = limit := Int.toNat_of_nonneg (by omega)
      omega
    · intro p hp
      rw [← hposts1] at hp
      have h1 := List.mem_of_mem_drop (List.mem_of_mem_take hp)
      have h2 : p ∈ s0.posts.filter (fun p => p.ID ∈ feed.Posts) :=
        (List.perm_insertionSort _ _).subset h1
      simpa using (List.mem_filter.mp h2).2
  unfold getFeedMiss at hok ⊢
  rw [hskip] at hok ⊢
  cases hu : findUser s.users userID with
  | none => simp [hu] at hok
  | some user =>
    simp only [hu] at hok ⊢
    rcases hlc : loadOrCreateFeed s userID env.feedCreatedAt with ⟨feed, s1, calls1⟩
    rw [hlc] at hst hok
    simp only at hst hok ⊢
    by_cases hstale : user.LastFeedUpdate < feed.UpdatedAt
    · simp only [hstale, if_true] at hok ⊢
      cases hup : updateFeed s1 userID feed env.mergeAt with
      | none => simp [hup] at hok
      | some r =>
        rcases r with ⟨s2, feed2⟩
        simp only [hup] at hok ⊢
        refine fin s2 feed2 _ ?_ hok
        rw [findFeed_updateFeed s1 s2 userID feed feed2 env.mergeAt hup, hst.2.2.2]
        have hx := updateFeed_posts s1 s2 userID feed feed2 env.mergeAt hup
        simp only [Option.map_some']
        congr 1
        cases feed2
        simp_all
    · simp only [hstale, if_false] at hok ⊢
      exact fin s1 feed _ hst.2.2.2 hok

/-- C2. At page 4611686018427387905 with limit 4 the product `(page - 1) * limit`
is `2 ^ 64`, which the 64-bit `int` wraps to 0: the request is answered with the
first page of the feed, while positions `[2 ^ 64, 2 ^ 64 + 4)` hold no post. -/
theorem getFeed_page_overflow :
    (GetFeed stSettled ⟨some 1, some 4611686018427387905, some 4⟩ envLate).resp
      = .ok [postB] 4611686018427387905 4 ∧
    Call.findUser ∈ (GetFeed stSettled ⟨some 1, some 4611686018427387905, some 4⟩ envLate).calls ∧
    ((sortByCreatedAtDesc (stSettled.posts.filter (fun p => p.ID ∈ [10]))).drop
      ((4611686018427387905 - 1) * 4 : Int).toNat).take 4 = [] := by
  decide

/-- C3, refuted as stated: a request with limit -1 is answered 200 with a post,
and a request with page 0 is answered 500 after the cache, the users, the feeds
and the posts have been consulted; neither is answered 400. -/
theorem getFeed_out_of_range_not_rejected :
    (GetFeed stSettled ⟨some 1, some 1, some (-1)⟩ envLate).resp = .ok [postB] 1 (-1) ∧
    (GetFeed stSettled ⟨some 1, some 0, some 10⟩ envLate).resp.status = 500 ∧
    (GetFeed stSettled ⟨some 1, some 0, some 10⟩ envLate).calls =
      [Call.cacheGet, Call.findUser, Call.findFeed, Call.findPosts] := by
  decide

/-- C3, amended. GetFeed answers 400 exactly when the user id, the page or the
limit fails to parse, and then it consults neither the cache nor the stores and
leaves the state as it was; an integer page or limit below 1 is never answered 400. -/
theorem getFeed_status_400_iff (s : State) (req : Request) (env : Env) :
    ((GetFeed s req env).resp.status = 400 ↔
      (req.id = none ∨ req.page = none ∨ req.limit = none)) ∧
    ((GetFeed s req env).resp.status = 400 →
      (GetFeed s req env).calls = [] ∧ (GetFeed s req env).state = s) := by
  rcases req with ⟨id, page, limit⟩
  cases id with
  | none => simp [GetFeed, Response.status]
  | some userID =>
    cases page with
    | none => simp [GetFeed, Response.status]
    | some page =>
      cases limit with
      | none => simp [GetFeed, Response.status]
      | some limit =>
        have hne : (GetFeed s ⟨some userID, some page, some limit⟩ env).resp.status ≠ 400 := by
          simp only [GetFeed]
          cases cacheGet s.cache (cacheKey userID page limit) env.cacheGetAt with
          | some posts => simp [Response.status]
          | none =>
            simp only [getFeedMiss]
            cases findUser s.users userID with
            | none => simp [Response.status]
            | some user =>
              simp only
              rcases loadOrCreateFeed s userID env.feedCreatedAt with ⟨feed, s1, calls1⟩
              simp only
              split
              · cases updateFeed s1 userID feed env.mergeAt with
                | none => simp [Response.status]
                | some r =>
                  simp only [fetchAndCache]
                  split <;> simp [Response.status]
              · simp only [fetchAndCache]
                split <;> simp [Response.status]
        simp [hne]

/-- C4. A successful updateFeed is prepend-only: the ids after the merge are the
newly found ids followed by the ids before the merge, so the old list is a suffix
of the new one and every old id is kept; the stored feed receives the same list. -/
theorem updateFeed_prepend_only (s s1 : State) (userID : ObjectID) (feed feed1 : Feed)
    (now : Time) (h : updateFeed s userID feed now = some (s1, feed1)) :
    ∃ user, findUser s.users userID = some user ∧
      feed1.Posts = newPostIDs s user ++ feed.Posts ∧
      feed.Posts <:+ feed1.Posts ∧
      (∀ id ∈ feed.Posts, id ∈ feed1.Posts) ∧
      feed1.Posts.drop (newPostIDs s user).length = feed.Posts ∧
      (∀ f, findFeed s.feeds userID = some f →
        findFeed s1.feeds userID = some { f with Posts := feed1.Posts, UpdatedAt := now }) := by
  have hstored := findFeed_updateFeed s s1 userID feed feed1 now h
  have hnow := (updateFeed_posts s s1 userID feed feed1 now h).2.2.2
  unfold updateFeed at h
  cases hu : findUser s.users userID with
  | none => simp [hu] at h
  | some user =>
    simp only [hu, Option.some.injEq, Prod.mk.injEq] at h
    obtain ⟨-, hf⟩ := h
    have hp : feed1.Posts = newPostIDs s user ++ feed.Posts := by rw [← hf]
    refine ⟨user, rfl, hp, ?_, ?_, ?_, ?_⟩
    · rw [hp]; exact List.suffix_append _ _
    · intro id hid
      rw [hp]; exact List.mem_append_right _ hid
    · rw [hp]; simp
    · intro f hfeed
      rw [hstored, hfeed, hnow]
      rfl

/-- Witness for C4: the merge for userE in stBusy. The stored feed [9, 8] receives
the two newly found ids in front and keeps its own two in place. -/
theorem updateFeed_prepend_only_witness :
    findFeed stBusy.feeds 1 = some feedBusy ∧
    newPostIDs stBusy userE = [10, 14] ∧
    feedBusyMerged.Posts = [10, 14, 9, 8] ∧
    findFeed stBusyMerged.feeds 1 = some feedBusyMerged ∧
    (∃ user, findUser stBusy.users 1 = some user ∧
      feedBusyMerged.Posts = newPostIDs stBusy user ++ feedBusy.Posts ∧
      feedBusy.Posts <:+ feedBusyMerged.Posts ∧
      (∀ id ∈ feedBusy.Posts, id ∈ feedBusyMerged.Posts) ∧
      feedBusyMerged.Posts.drop (newPostIDs stBusy user).length = feedBusy.Posts ∧
      (∀ f, findFeed stBusy.feeds 1 = some f →
        findFeed stBusyMerged.feeds 1
          = some { f with Posts := feedBusyMerged.Posts, UpdatedAt := 400 })) :=
  ⟨by decide, by decide, by decide, by decide,
    updateFeed_prepend_only stBusy stBusyMerged 1 feedBusy feedBusyMerged 400 (by decide)⟩

/-- C5, refuted as stated: in stRewound the feed [10] has no duplicate and post ids
are unique, yet updateFeed finds post 10 again and leaves the list [10, 10]. -/
theorem updateFeed_duplicates_id :
    ([10] : List ObjectID).Nodup ∧ (stRewound.posts.map (fun p => p.ID)).Nodup ∧
    (updateFeed stRewound 1 { UserID := 1, Posts := [10], UpdatedAt := 300 } 400).map
      (fun r => r.2.Posts) = some [10, 10] ∧
    ¬ ([10, 10] : List ObjectID).Nodup := by
  decide

/-- C5, amended. If the feed's ids are duplicate-free, post ids are unique in the
store, and every stored post the feed names was created no later than the user's
LastFeedUpdate, then the ids after a successful updateFeed are duplicate-free. -/
theorem updateFeed_nodup (s s1 : State) (userID : ObjectID) (feed feed1 : Feed) (now : Time)
    (user : User) (hu : findUser s.users userID = some user)
    (h : updateFeed s userID feed now = some (s1, feed1))
    (hnd : feed.Posts.Nodup) (hids : (s.posts.map (fun p => p.ID)).Nodup)
    (hmark : ∀ p ∈ s.posts, p.ID ∈ feed.Posts → p.CreatedAt ≤ user.LastFeedUpdate) :
    feed1.Posts.Nodup := by
  unfold updateFeed at h
  simp only [hu, Option.some.injEq, Prod.mk.injEq] at h
  obtain ⟨-, hf⟩ := h
  rw [← hf]
  refine List.Nodup.append (nodup_newPostIDs s user hids) hnd ?_
  intro id hnew hold
  obtain ⟨p, hp, -, ht, hid⟩ := (mem_newPostIDs s user id).mp hnew
  have := hmark p hp (by rw [hid]; exact hold)
  exact absurd ht (Nat.not_lt.mpr this)

/-- Witness for C5: the merge for userE in stBusy. The feed [9, 8] is duplicate-free
and names only posts older than the watermark; the merged feed [10, 14, 9, 8] is
duplicate-free. -/
theorem updateFeed_nodup_witness :
    feedBusy.Posts = [9, 8] ∧ feedBusy.Posts.Nodup ∧
    (∀ p ∈ stBusy.posts, p.ID ∈ feedBusy.Posts → p.CreatedAt ≤ userE.LastFeedUpdate) ∧
    feedBusyMerged.Posts = [10, 14, 9, 8] ∧
    feedBusyMerged.Posts.Nodup :=
  ⟨by decide, by decide, by decide, by decide,
    updateFeed_nodup stBusy stBusyMerged 1 feedBusy feedBusyMerged 400 userE
      (by decide) (by decide) (by decide) (by decide) (by decide)⟩

/-- C6, refuted as stated: in stOlderMissing the feed [11] is newest-first, yet
updateFeed puts B's older post 10 (instant 200) in front of post 11 (instant 250). -/
theorem updateFeed_breaks_order :
    NewestFirst stOlderMissing.posts [11] ∧
    (updateFeed stOlderMissing 1 { UserID := 1, Posts := [11], UpdatedAt := 300 } 400).map
      (fun r => r.2.Posts) = some [10, 11] ∧
    feedTimes stOlderMissing.posts [10, 11] = [200, 250] ∧
    ¬ NewestFirst stOlderMissing.posts [10, 11] := by
  decide

/-- C6, amended. If the feed's ids are newest-first, post ids are unique in the
store, and every stored post the feed names was created no later than the user's
LastFeedUpdate, then the ids after a successful updateFeed are newest-first. -/
theorem updateFeed_newestFirst (s s1 : State) (userID : ObjectID) (feed feed1 : Feed)
    (now : Time) (user : User) (hu : findUser s.users userID = some user)
    (h : updateFeed s userID feed now = some (s1, feed1))
    (hsorted : NewestFirst s.posts feed.Posts)
    (hids : (s.posts.map (fun p => p.ID)).Nodup)
    (hmark : ∀ p ∈ s.posts, p.ID ∈ feed.Posts → p.CreatedAt ≤ user.LastFeedUpdate) :
    NewestFirst s1.posts feed1.Posts := by
  have hposts := (updateFeed_posts s s1 userID feed feed1 now h).1
  unfold updateFeed at h
  simp only [hu, Option.some.injEq, Prod.mk.injEq] at h
  obtain ⟨-, hf⟩ := h
  rw [hposts, ← hf]
  unfold NewestFirst at hsorted ⊢
  have hsub : ∀ p ∈ findPostsByAuthorsSince s.posts (followingIDs s.users user)
      user.LastFeedUpdate, p ∈ s.posts ∧ user.LastFeedUpdate < p.CreatedAt := by
    intro p hp
    unfold findPostsByAuthorsSince sortByCreatedAtDesc at hp
    rw [List.mem_insertionSort, List.mem_filter] at hp
    exact ⟨hp.1, by simpa using (And.right (by simpa using hp.2))⟩
  have hnew : feedTimes s.posts (newPostIDs s user) =
      (findPostsByAuthorsSince s.posts (followingIDs s.users user)
        user.LastFeedUpdate).map (fun p => p.CreatedAt) :=
    feedTimes_map_ID s.posts hids _ (fun p hp => (hsub p hp).1)
  have happ : feedTimes s.posts (newPostIDs s user ++ feed.Posts) =
      feedTimes s.posts (newPostIDs s user) ++ feedTimes s.posts feed.Posts := by
    unfold feedTimes
    exact List.filterMap_append _ _ _
  show (feedTimes s.posts (newPostIDs s user ++ feed.Posts)).Pairwise _
  rw [happ, List.pairwise_append]
  refine ⟨?_, hsorted, ?_⟩
  · rw [hnew]
    exact List.Pairwise.map _ (fun a b hab => hab) (sortByCreatedAtDesc_sorted _)
  · intro a ha b hb
    rw [hnew, List.mem_map] at ha
    obtain ⟨p, hp, rfl⟩ := ha
    unfold feedTimes at hb
    rw [List.mem_filterMap] at hb
    obtain ⟨id, hid, hq⟩ := hb
    obtain ⟨q, hq1, hq2, hq3⟩ := createdAtOf_eq_some s.posts id b hq
    have h1 := (hsub p hp).2
    have h2 := hmark q hq1 (by rw [hq2]; exact hid)
    rw [hq3] at h2
    exact Nat.le_of_lt (Nat.lt_of_le_of_lt h2 h1)

/-- Witness for C6: the merge for userE in stBusy. The feed [9, 8] names instants
50 and 40, both before the watermark 100; the merged feed names 200, 150, 50, 40. -/
theorem updateFeed_newestFirst_witness :
    feedTimes stBusy.posts feedBusy.Posts = [50, 40] ∧
    NewestFirst stBusy.posts feedBusy.Posts ∧
    feedTimes stBusyMerged.posts feedBusyMerged.Posts = [200, 150, 50, 40] ∧
    NewestFirst stBusyMerged.posts feedBusyMerged.Posts :=
  ⟨by decide, by decide, by decide,
    updateFeed_newestFirst stBusy stBusyMerged 1 feedBusy feedBusyMerged 400 userE
      (by decide) (by decide) (by decide) (by decide) (by decide)⟩

/-- C7, refuted as stated: in stPromoted the feed names post 10 of B, who is flagged
celebrity; updateFeed succeeds and the feed still names post 10. -/
theorem updateFeed_keeps_celebrity_post :
    (updateFeed stPromoted 1 { UserID := 1, Posts := [10], UpdatedAt := 300 } 400).map
      (fun r => r.2.Posts) = some [10] ∧
    postB ∈ stPromoted.posts ∧ postB.ID = 10 ∧
    (findUser stPromoted.users postB.UserID).map (fun u => u.IsCelebrity) = some true := by
  decide

/-- C7, amended. The ids prepended by updateFeed never name a post of an author
flagged celebrity: if, post ids being unique, the feed names no celebrity-authored
post before a successful updateFeed, it names none after it. -/
theorem updateFeed_noCelebrityPost (s s1 : State) (userID : ObjectID) (feed feed1 : Feed)
    (now : Time) (h : updateFeed s userID feed now = some (s1, feed1))
    (hids : (s.posts.map (fun p => p.ID)).Nodup)
    (hold : NoCelebrityPost s feed.Posts) :
    NoCelebrityPost s1 feed1.Posts := by
  have hposts := (updateFeed_posts s s1 userID feed feed1 now h).1
  have hflags := updateFeed_celebrity_flags s s1 userID feed feed1 now h
  obtain ⟨user, hu, hp, -⟩ := updateFeed_shape s s1 userID feed feed1 now h
  intro p hpmem hpid a ha
  rw [hposts] at hpmem
  have hflag := hflags p.UserID
  rw [ha] at hflag
  rw [hp, List.mem_append] at hpid
  rcases hpid with hnew | hmem
  · obtain ⟨q, hq, hqa, -, hqid⟩ := (mem_newPostIDs s user p.ID).mp hnew
    have hpq : q = p := eq_of_ID_eq s.posts hids q p hq hpmem hqid
    subst hpq
    unfold followingIDs at hqa
    rw [List.mem_filter] at hqa
    cases hfu : findUser s.users q.UserID with
    | none => simp [hfu] at hqa
    | some fu =>
      rw [hfu] at hflag
      simp only [hfu, Bool.not_eq_true'] at hqa
      simp only [Option.map_some', Option.some.injEq] at hflag
      rw [hflag]; exact hqa.2
  · cases hfu : findUser s.users p.UserID with
    | none => simp [hfu] at hflag
    | some fu =>
      rw [hfu] at hflag
      simp only [Option.map_some', Option.some.injEq] at hflag
      rw [hflag]; exact hold p hpmem hmem fu hfu

/-- Witness for C7: the merge for userE in stBusy. The celebrity 3 is followed and
has a post newer than the watermark; the merge leaves it out, and the merged feed
names no post of a celebrity. -/
theorem updateFeed_noCelebrityPost_witness :
    postStar ∈ stBusy.posts ∧ postStar.UserID ∈ userE.Following ∧
    userE.LastFeedUpdate < postStar.CreatedAt ∧
    (findUser stBusy.users postStar.UserID).map (fun u => u.IsCelebrity) = some true ∧
    NoCelebrityPost stBusy feedBusy.Posts ∧
    postStar.ID ∉ feedBusyMerged.Posts ∧
    NoCelebrityPost stBusyMerged feedBusyMerged.Posts :=
  ⟨by decide, by decide, by decide, by decide, by decide, by decide,
    updateFeed_noCelebrityPost stBusy stBusyMerged 1 feedBusy feedBusyMerged 400
      (by decide) (by decide) (by decide)⟩

/-- C8. If a GetFeed call misses the cache, succeeds, and its cache write succeeds,
then after any sequence of steps (arbitrary changes to users, posts and feeds, and
other GetFeed calls) every GetFeed call with the same arguments that reads the cache
before the entry's ten minutes are over answers the identical posts, page and limit
from the cache and changes no user, feed or cache state. -/
theorem getFeed_cached_idempotent (s : State) (req : Request) (env : Env)
    (userID : ObjectID) (page limit : Int) (posts : List Post) (page1 limit1 : Int)
    (hid : req.id = some userID) (hpage : req.page = some page)
    (hlimit : req.limit = some limit)
    (hmiss : cacheGet s.cache (cacheKey userID page limit) env.cacheGetAt = none)
    (hok : (GetFeed s req env).resp = .ok posts page1 limit1)
    (hset : env.cacheSetOk = true)
    (steps : List Step) (env2 : Env)
    (hsteps : ∀ st ∈ steps, st.readsBefore (env.cacheSetAt + cacheTTL))
    (hlater : env2.cacheGetAt < env.cacheSetAt + cacheTTL) :
    GetFeed (runSteps (GetFeed s req env).state steps) req env2 =
      ⟨.ok posts page1 limit1, runSteps (GetFeed s req env).state steps, [Call.cacheGet]⟩ := by
  have key : GetFeed s req env = getFeedMiss s userID page limit env := by
    simp [GetFeed, hid, hpage, hlimit, hmiss]
  rw [key] at hok ⊢
  obtain ⟨hp1, hl1, hcache⟩ := getFeedMiss_ok s userID page limit env posts page1 limit1 hset hok
  have hlive : (getFeedMiss s userID page limit env).state.cache.find?
      (fun e => e.key = cacheKey userID page limit) =
      some ⟨cacheKey userID page limit, posts, env.cacheSetAt + cacheTTL⟩ := by
    rw [hcache]; exact find?_cacheSet_self _ _ _ _
  have hrun := runSteps_keeps_entry steps _ _ _ _ hlive hsteps
  have hget := cacheGet_of_find? _ _ _ _ env2.cacheGetAt hrun hlater
  simp [GetFeed, hid, hpage, hlimit, hget, hp1, hl1]

/-- Witness for C8: A is served from stFresh, then B is deleted, every post is
removed and A is served again on another page; the first request, repeated at
instant 1000, is still answered with B's post. -/
theorem getFeed_cached_idempotent_witness :
    GetFeed (runSteps (GetFeed stFresh reqA envLate).state
        [Step.stores [userA] [] [], Step.getFeed ⟨some 1, some 2, some 10⟩ envNext])
      reqA envNext =
      ⟨.ok [postB] 1 10,
        runSteps (GetFeed stFresh reqA envLate).state
          [Step.stores [userA] [] [], Step.getFeed ⟨some 1, some 2, some 10⟩ envNext],
        [Call.cacheGet]⟩ :=
  getFeed_cached_idempotent stFresh reqA envLate 1 1 10 [postB] 1 10 rfl rfl rfl
    (by decide) (by decide) (by decide)
    [Step.stores [userA] [] [], Step.getFeed ⟨some 1, some 2, some 10⟩ envNext] envNext
    (by decide) (by decide)

/-- C9, refuted as stated: after A was served once and then deleted, A's id
resolves to no user, yet the same request is answered 200 from the cache. -/
theorem getFeed_deleted_user_served :
    findUser stDeleted.users 1 = none ∧
    (GetFeed stDeleted reqA envNext).resp = .ok [postB] 1 10 ∧
    (GetFeed stDeleted reqA envNext).calls = [Call.cacheGet] := by
  decide

/-- C9, amended. For a well-formed request whose user id resolves to no user,
GetFeed answers 404 and changes nothing when the cache holds no live entry for
(userId, page, limit); when it holds one, the cached page is answered with 200. -/
theorem getFeed_unknown_user (s : State) (req : Request) (env : Env)
    (userID : ObjectID) (page limit : Int)
    (hid : req.id = some userID) (hpage : req.page = some page)
    (hlimit : req.limit = some limit) (hno : findUser s.users userID = none) :
    (cacheGet s.cache (cacheKey userID page limit) env.cacheGetAt = none →
      (GetFeed s req env).resp = .error 404 "User not found" ∧
      (GetFeed s req env).resp.status = 404 ∧ (GetFeed s req env).state = s) ∧
    (∀ posts, cacheGet s.cache (cacheKey userID page limit) env.cacheGetAt = some posts →
      (GetFeed s req env).resp = .ok posts page limit) := by
  constructor
  · intro hmiss
    simp [GetFeed, hid, hpage, hlimit, hmiss, getFeedMiss, hno, Response.status]
  · intro posts hhit
    simp [GetFeed, hid, hpage, hlimit, hhit]

/-- Witness for C9: nobody has id 7 in stFresh, whose cache is empty. -/
theorem getFeed_unknown_user_witness :
    (cacheGet stFresh.cache (cacheKey 7 1 10) envLate.cacheGetAt = none →
      (GetFeed stFresh ⟨some 7, some 1, some 10⟩ envLate).resp
        = .error 404 "User not found" ∧
      (GetFeed stFresh ⟨some 7, some 1, some 10⟩ envLate).resp.status = 404 ∧
      (GetFeed stFresh ⟨some 7, some 1, some 10⟩ envLate).state = stFresh) ∧
    (∀ posts, cacheGet stFresh.cache (cacheKey 7 1 10) envLate.cacheGetAt = some posts →
      (GetFeed stFresh ⟨some 7, some 1, some 10⟩ envLate).resp = .ok posts 1 10) :=
  getFeed_unknown_user stFresh ⟨some 7, some 1, some 10⟩ envLate 7 1 10 rfl rfl rfl
    (by decide)

set_option maxRecDepth 8000 in
/-- C10, refuted as stated, twice. In stQuiet A follows ordinary B, B's post dates
from instant 200, A's watermark is 100 and the cache is empty; but A's feed carries
timestamp 100 too, so no merge runs and the answer is an empty page. In stCrowded the
same holds with A's feed absent: the merge runs and adds B's post to the feed, but B
has ten newer posts and the page of ten does not contain the post. -/
theorem getFeed_new_post_not_delivered :
    (findUser stQuiet.users 1 = some userA ∧ userB.ID ∈ userA.Following ∧
      findUser stQuiet.users 2 = some userB ∧ userB.IsCelebrity = false ∧
      postB ∈ stQuiet.posts ∧ postB.UserID = userB.ID ∧
      userA.LastFeedUpdate < postB.CreatedAt ∧
      stQuiet.cache = [] ∧
      Call.updateFeed ∉ (GetFeed stQuiet reqA envLate).calls ∧
      (GetFeed stQuiet reqA envLate).resp = .ok [] 1 10 ∧
      findFeed (GetFeed stQuiet reqA envLate).state.feeds 1 =
        some { UserID := 1, Posts := [], UpdatedAt := 100 }) ∧
    (findUser stCrowded.users 1 = some userA ∧ userB.ID ∈ userA.Following ∧
      findUser stCrowded.users 2 = some userB ∧ userB.IsCelebrity = false ∧
      postB ∈ stCrowded.posts ∧ postB.UserID = userB.ID ∧
      userA.LastFeedUpdate < postB.CreatedAt ∧
      stCrowded.cache = [] ∧
      Call.updateFeed ∈ (GetFeed stCrowded reqA envLate).calls ∧
      (findFeed (GetFeed stCrowded reqA envLate).state.feeds 1).map
        (fun f => decide (postB.ID ∈ f.Posts)) = some true ∧
      (GetFeed stCrowded reqA envLate).resp = .ok tenNewer 1 10 ∧
      postB ∉ tenNewer) := by
  decide

/-- C10, amended. If A follows an ordinary user B, B has a stored post created
after A's LastFeedUpdate, the cache has no live entry for (A, 1, 10), A's feed is
absent or carries an UpdatedAt later than A's LastFeedUpdate, and fewer than ten of
the stored posts named by A's feed after the merge come before B's post in the
newest-first order, then GetFeed(A, 1, 10) runs the merge, the stored feed of A
names B's post afterwards, and the answer is 200 with a page containing it. -/
theorem getFeed_delivers_new_post (s : State) (env : Env) (A B : User) (p : Post)
    (hA : findUser s.users A.ID = some A) (hfollow : B.ID ∈ A.Following)
    (hB : findUser s.users B.ID = some B) (hBc : B.IsCelebrity = false)
    (hp : p ∈ s.posts) (hpa : p.UserID = B.ID) (ht : A.LastFeedUpdate < p.CreatedAt)
    (hmiss : cacheGet s.cache (cacheKey A.ID 1 10) env.cacheGetAt = none)
    (hstale : A.LastFeedUpdate <
      ((findFeed s.feeds A.ID).getD
        { UserID := A.ID, Posts := [], UpdatedAt := env.feedCreatedAt }).UpdatedAt)
    (hrank : rankIn p (s.posts.filter (fun q => q.ID ∈ newPostIDs s A ++
      ((findFeed s.feeds A.ID).getD
        { UserID := A.ID, Posts := [], UpdatedAt := env.feedCreatedAt }).Posts)) < 10) :
    Call.updateFeed ∈ (GetFeed s ⟨some A.ID, some 1, some 10⟩ env).calls ∧
    (∃ feed, findFeed (GetFeed s ⟨some A.ID, some 1, some 10⟩ env).state.feeds A.ID
        = some feed ∧ p.ID ∈ feed.Posts) ∧
    ∃ posts, (GetFeed s ⟨some A.ID, some 1, some 10⟩ env).resp = .ok posts 1 10 ∧
      p ∈ posts := by
  obtain ⟨hcall, ⟨feed, hfeed, hposts⟩, hresp⟩ := getFeed_stale_firstPage s env A hA hmiss hstale
  have hnew : p.ID ∈ newPostIDs s A := by
    rw [mem_newPostIDs]
    refine ⟨p, hp, ?_, ht, rfl⟩
    unfold followingIDs
    rw [List.mem_filter, hpa, hB]
    exact ⟨hfollow, by simp [hBc]⟩
  refine ⟨hcall, ⟨feed, hfeed, by rw [hposts]; exact List.mem_append_left _ hnew⟩, _, hresp, ?_⟩
  rw [mem_take_sort_iff p _ ?_ 10]
  · exact hrank
  · rw [List.mem_filter]
    exact ⟨hp, by simpa using Or.inl hnew⟩

/-- Witness for C10: userE in stBusy, whose feed already names two posts and is
stale; the merge adds B's two newer posts and page one shows postB first. -/
theorem getFeed_delivers_new_post_witness :
    findFeed stBusy.feeds userE.ID = some feedBusy ∧
    (GetFeed stBusy ⟨some userE.ID, some 1, some 10⟩ envLate).resp
      = .ok [postB, post14, post9, post8] 1 10 ∧
    (Call.updateFeed ∈ (GetFeed stBusy ⟨some userE.ID, some 1, some 10⟩ envLate).calls ∧
      (∃ feed, findFeed (GetFeed stBusy ⟨some userE.ID, some 1, some 10⟩ envLate).state.feeds
          userE.ID = some feed ∧ postB.ID ∈ feed.Posts) ∧
      ∃ posts, (GetFeed stBusy ⟨some userE.ID, some 1, some 10⟩ envLate).resp
          = .ok posts 1 10 ∧ postB ∈ posts) :=
  ⟨by decide, by decide,
    getFeed_delivers_new_post stBusy envLate userE userB postB (by decide) (by decide)
      (by decide) (by decide) (by decide) (by decide) (by decide) (by decide) (by decide)
      (by decide)⟩

/-- C10, the page condition is exact: under the same hypotheses, when ten or more
of the posts named by A's feed after the merge come before B's post, the page
answered does not contain it. -/
theorem getFeed_new_post_beyond_page (s : State) (env : Env) (A : User) (p : Post)
    (hA : findUser s.users A.ID = some A)
    (hmiss : cacheGet s.cache (cacheKey A.ID 1 10) env.cacheGetAt = none)
    (hstale : A.LastFeedUpdate <
      ((findFeed s.feeds A.ID).getD
        { UserID := A.ID, Posts := [], UpdatedAt := env.feedCreatedAt }).UpdatedAt)
    (hp : p ∈ s.posts.filter (fun q => q.ID ∈ newPostIDs s A ++
      ((findFeed s.feeds A.ID).getD
        { UserID := A.ID, Posts := [], UpdatedAt := env.feedCreatedAt }).Posts))
    (hrank : 10 ≤ rankIn p (s.posts.filter (fun q => q.ID ∈ newPostIDs s A ++
      ((findFeed s.feeds A.ID).getD
        { UserID := A.ID, Posts := [], UpdatedAt := env.feedCreatedAt }).Posts)))
    (posts : List Post)
    (hresp : (GetFeed s ⟨some A.ID, some 1, some 10⟩ env).resp = .ok posts 1 10) :
    p ∉ posts := by
  obtain ⟨-, -, hpage⟩ := getFeed_stale_firstPage s env A hA hmiss hstale
  rw [hpage] at hresp
  simp only [Response.ok.injEq, and_true] at hresp
  rw [← hresp, mem_take_sort_iff p _ hp 10]
  exact Nat.not_lt.mpr hrank

/-! ## Claims, continued -/

theorem mem_followingIDs (s : State) (user : User) (id : ObjectID) :
    id ∈ followingIDs s.users user ↔ isOrdinaryFollowee s user id = true := by
  unfold followingIDs isOrdinaryFollowee
  rw [List.mem_filter]
  simp

theorem isOrdinaryFollowee_iff (s : State) (user : User) (id : ObjectID) :
    isOrdinaryFollowee s user id = true ↔
      id ∈ user.Following ∧ ∃ fu, findUser s.users id = some fu ∧ fu.IsCelebrity = false := by
  unfold isOrdinaryFollowee
  cases findUser s.users id with
  | none => simp
  | some fu => simp

theorem findPostsByAuthorsSince_perm (s : State) (user : User) :
    (findPostsByAuthorsSince s.posts (followingIDs s.users user) user.LastFeedUpdate).Perm
      (mergeCandidates s user) := by
  unfold findPostsByAuthorsSince sortByCreatedAtDesc mergeCandidates
  refine (List.perm_insertionSort _ _).trans ?_
  have hfun : (fun p : Post => decide (p.UserID ∈ followingIDs s.users user ∧
        user.LastFeedUpdate < p.CreatedAt)) =
      (fun p : Post => isOrdinaryFollowee s user p.UserID &&
        decide (user.LastFeedUpdate < p.CreatedAt)) := by
    funext p
    rw [Bool.eq_iff_iff]
    simp [mem_followingIDs]
  rw [hfun]

/-- C11. Whenever the user loads, updateFeed succeeds, whatever the followees'
lookups give, and the ids it prepends are those of exactly the stored posts whose
author is in the user's following list, loads and is not flagged celebrity, and
whose creation instant is strictly later than the user's LastFeedUpdate: every such
post, as often as it is stored, in descending creation order. A followee that does
not load contributes no post. -/
theorem updateFeed_prepends_candidates (s : State) (userID : ObjectID) (feed : Feed)
    (now : Time) (user : User) (hu : findUser s.users userID = some user) :
    ∃ (s1 : State) (feed1 : Feed) (found : List Post),
      updateFeed s userID feed now = some (s1, feed1) ∧
      feed1.Posts = found.map (fun p => p.ID) ++ feed.Posts ∧
      found.Perm (mergeCandidates s user) ∧
      found.length = (mergeCandidates s user).length ∧
      found.Pairwise (fun a b => b.CreatedAt ≤ a.CreatedAt) ∧
      (∀ p, p ∈ found ↔
        p ∈ s.posts ∧ p.UserID ∈ user.Following ∧
        (∃ fu, findUser s.users p.UserID = some fu ∧ fu.IsCelebrity = false) ∧
        user.LastFeedUpdate < p.CreatedAt) ∧
      (∀ id ∈ user.Following, findUser s.users id = none → ∀ p : Post, p ∈ found → p.UserID ≠ id) := by
  have hperm := findPostsByAuthorsSince_perm s user
  have hmem : ∀ p, p ∈ findPostsByAuthorsSince s.posts (followingIDs s.users user)
      user.LastFeedUpdate ↔
        p ∈ s.posts ∧ p.UserID ∈ user.Following ∧
        (∃ fu, findUser s.users p.UserID = some fu ∧ fu.IsCelebrity = false) ∧
        user.LastFeedUpdate < p.CreatedAt := by
    intro p
    rw [hperm.mem_iff]
    unfold mergeCandidates
    rw [List.mem_filter, Bool.and_eq_true, isOrdinaryFollowee_iff, decide_eq_true_eq]
    tauto
  have hsome : (updateFeed s userID feed now).isSome :=
    (updateFeed_isSome_iff s userID feed now).mpr (by simp [hu])
  obtain ⟨⟨s1, feed1⟩, hup⟩ := Option.isSome_iff_exists.mp hsome
  obtain ⟨user1, hu1, hposts, -⟩ := updateFeed_shape s s1 userID feed feed1 now hup
  rw [hu] at hu1
  obtain rfl : user = user1 := Option.some.inj hu1
  refine ⟨s1, feed1, findPostsByAuthorsSince s.posts (followingIDs s.users user)
    user.LastFeedUpdate, hup, hposts, hperm, hperm.length_eq,
    sortByCreatedAtDesc_sorted _, hmem, ?_⟩
  · intro id _ hnone p hp hpid
    obtain ⟨-, -, ⟨fu, hfu, -⟩, -⟩ := (hmem p).mp hp
    rw [hpid, hnone] at hfu
    exact Option.noConfusion hfu

/-- Witness for C11: in stDangling the first followee of userD does not load; the
merge still succeeds and prepends B's post, not the vanished account's. -/
theorem updateFeed_prepends_candidates_witness :
    ∃ (s1 : State) (feed1 : Feed) (found : List Post),
      updateFeed stDangling 1 { UserID := 1, Posts := [], UpdatedAt := 300 } 400
        = some (s1, feed1) ∧
      feed1.Posts = found.map (fun p => p.ID) ++
        ({ UserID := 1, Posts := [], UpdatedAt := 300 } : Feed).Posts ∧
      found.Perm (mergeCandidates stDangling userD) ∧
      found.length = (mergeCandidates stDangling userD).length ∧
      found.Pairwise (fun a b => b.CreatedAt ≤ a.CreatedAt) ∧
      (∀ p, p ∈ found ↔
        p ∈ stDangling.posts ∧ p.UserID ∈ userD.Following ∧
        (∃ fu, findUser stDangling.users p.UserID = some fu ∧ fu.IsCelebrity = false) ∧
        userD.LastFeedUpdate < p.CreatedAt) ∧
      (∀ id ∈ userD.Following, findUser stDangling.users id = none →
        ∀ p : Post, p ∈ found → p.UserID ≠ id) :=
  updateFeed_prepends_candidates stDangling 1 { UserID := 1, Posts := [], UpdatedAt := 300 }
    400 userD (by decide)

theorem find?_updateOne_other {α : Type} (p q : α → Bool) (f : α → α)
    (hpq : ∀ x, q x = true → p x = false) (hf : ∀ x, q (f x) = q x) (xs : List α) :
    (updateOne p f xs).find? q = xs.find? q := by
  induction xs with
  | nil => rfl
  | cons x xs ih =>
    by_cases hp : p x = true
    · have hq : q x = false := by
        cases hqx : q x with
        | false => rfl
        | true => rw [hpq x hqx] at hp; exact Bool.noConfusion hp
      simp [updateOne, hp, List.find?_cons, hf, hq]
    · by_cases hq : q x = true
      · simp [updateOne, hp, List.find?_cons, hq]
      · simp [updateOne, hp, List.find?_cons, hq, ih]

theorem updateFeed_other (s s1 : State) (v userID : ObjectID) (feed feed1 : Feed) (now : Time)
    (h : updateFeed s v feed now = some (s1, feed1)) (hne : v ≠ userID) :
    findFeed s1.feeds userID = findFeed s.feeds userID ∧
    findUser s1.users userID = findUser s.users userID := by
  unfold updateFeed at h
  cases hu : findUser s.users v with
  | none => simp [hu] at h
  | some user =>
    simp only [hu, Option.some.injEq, Prod.mk.injEq] at h
    obtain ⟨hs, -⟩ := h
    subst hs
    constructor
    · simp only [findFeed]
      apply find?_updateOne_other
      · intro x hx
        have hx1 : x.UserID = userID := by simpa using hx
        simp [hx1, Ne.symm hne]
      · intro x; rfl
    · simp only [findUser]
      apply find?_updateOne_other
      · intro x hx
        have hx1 : x.ID = userID := by simpa using hx
        simp [hx1, Ne.symm hne]
      · intro x; rfl

theorem updateFeed_settles (s s1 : State) (userID : ObjectID) (feed feed1 : Feed) (now : Time)
    (h : updateFeed s userID feed now = some (s1, feed1))
    (hfeed : findFeed s.feeds userID = some feed) :
    Settled s1 userID feed1 ∧ feed1.UpdatedAt = now := by
  have hx := updateFeed_posts s s1 userID feed feed1 now h
  have hstored := findFeed_updateFeed s s1 userID feed feed1 now h
  refine ⟨⟨?_, ?_⟩, hx.2.2.2⟩
  · rw [hstored, hfeed]
    simp only [Option.map_some']
    congr 1
    cases feed1
    simp_all
  · rw [hx.2.2.2]
    unfold updateFeed at h
    cases hu : findUser s.users userID with
    | none => simp [hu] at h
    | some user =>
      simp only [hu, Option.some.injEq, Prod.mk.injEq] at h
      obtain ⟨hs, -⟩ := h
      subst hs
      simp only [findUser] at hu ⊢
      have hfind := find?_updateOne (fun u : User => decide (u.ID = userID))
        (fun u : User => { u with LastFeedUpdate := now }) (fun x => rfl) s.users
      rw [hfind, hu]
      rfl

theorem loadOrCreateFeed_findFeed (s : State) (v userID : ObjectID) (now : Time) (feed : Feed)
    (hfeed : findFeed s.feeds userID = some feed) :
    findFeed (loadOrCreateFeed s v now).2.1.feeds userID = some feed := by
  unfold loadOrCreateFeed
  cases findFeed s.feeds v with
  | some f => exact hfeed
  | none =>
    simp only [findFeed] at hfeed ⊢
    simp [List.find?_append, hfeed]

theorem getFeedMiss_settled (s : State) (v : ObjectID) (page limit : Int) (env : Env)
    (userID : ObjectID) (feed : Feed) (hs : Settled s userID feed) :
    Settled (getFeedMiss s v page limit env).state userID feed ∧
    (v = userID → Call.updateFeed ∉ (getFeedMiss s v page limit env).calls) := by
  have hst := loadOrCreateFeed_state s v env.feedCreatedAt
  have hcl := loadOrCreateFeed_calls s v env.feedCreatedAt
  have hff := loadOrCreateFeed_findFeed s v userID env.feedCreatedAt feed hs.1
  unfold getFeedMiss
  cases hu : findUser s.users v with
  | none => exact ⟨hs, fun _ => by simp⟩
  | some user =>
    simp only
    rcases hlc : loadOrCreateFeed s v env.feedCreatedAt with ⟨fd, s1, calls1⟩
    rw [hlc] at hst hcl hff
    simp only at hst hcl hff ⊢
    have hs1 : Settled s1 userID feed := ⟨hff, by rw [hst.1]; exact hs.2⟩
    have hfin : ∀ (s0 : State) (f0 : Feed) (calls : List Call), Settled s0 userID feed →
        Settled (fetchAndCache s0 f0 (cacheKey v page limit) page limit
          (wrapInt64 (wrapInt64 (page - 1) * limit)) env calls).state userID feed := by
      intro s0 f0 calls h0
      obtain ⟨h1, h2, -⟩ := fetchAndCache_users s0 f0 (cacheKey v page limit) page limit
        (wrapInt64 (wrapInt64 (page - 1) * limit)) env calls
      unfold Settled
      rw [h1, h2]
      exact h0
    by_cases hv : v = userID
    · subst hv
      have hfd : fd = feed := by
        have := hst.2.2.2
        rw [hff] at this
        exact (Option.some.inj this).symm
      have hlfu : user.LastFeedUpdate = feed.UpdatedAt := by
        have := hs.2
        rw [hu] at this
        simpa using this
      have hns : ¬ user.LastFeedUpdate < fd.UpdatedAt := by
        rw [hfd, hlfu]
        exact Nat.lt_irrefl _
      simp only [hns, if_false]
      refine ⟨hfin s1 fd _ hs1, fun _ => ?_⟩
      rw [fetchAndCache_calls _ _ _ _ _ _ _ _ _ (by decide) (by decide)]
      simpa using hcl
    · refine ⟨?_, fun h => absurd h hv⟩
      split
      · cases hup : updateFeed s1 v fd env.mergeAt with
        | none => exact hs1
        | some r =>
          rcases r with ⟨s2, fd2⟩
          simp only
          apply hfin
          obtain ⟨h1, h2⟩ := updateFeed_other s1 s2 v userID fd fd2 env.mergeAt hup hv
          unfold Settled
          rw [h1, h2]
          exact hs1
      · exact hfin s1 fd _ hs1

theorem getFeed_settled (s : State) (req : Request) (env : Env) (userID : ObjectID)
    (feed : Feed) (hs : Settled s userID feed) :
    Settled (GetFeed s req env).state userID feed ∧
    (req.id = some userID → Call.updateFeed ∉ (GetFeed s req env).calls) := by
  rcases req with ⟨id, page, limit⟩
  cases id with
  | none => exact ⟨hs, fun _ => by simp [GetFeed]⟩
  | some v =>
    cases page with
    | none => exact ⟨hs, fun _ => by simp [GetFeed]⟩
    | some page =>
      cases limit with
      | none => exact ⟨hs, fun _ => by simp [GetFeed]⟩
      | some limit =>
        simp only [GetFeed]
        cases cacheGet s.cache (cacheKey v page limit) env.cacheGetAt with
        | some posts => exact ⟨hs, fun _ => by simp⟩
        | none =>
          simp only
          obtain ⟨h1, h2⟩ := getFeedMiss_settled s v page limit env userID feed hs
          exact ⟨h1, fun h => h2 (Option.some.inj h)⟩

theorem apply_settled (s : State) (op : Op) (userID : ObjectID) (feed : Feed)
    (hs : Settled s userID feed) : Settled (op.apply s) userID feed := by
  have hkeep : ∀ (p : User → Bool) (f : User → User) (users : List User),
      (∀ u, (f u).ID = u.ID) → (∀ u, (f u).LastFeedUpdate = u.LastFeedUpdate) →
      (findUser (updateOne p f users) userID).map (fun u => u.LastFeedUpdate) =
        (findUser users userID).map (fun u => u.LastFeedUpdate) :=
    fun p f users h1 h2 => findUser_map_updateOne _ p f h1 h2 users userID
  cases op with
  | getFeed req env => exact (getFeed_settled s req env userID feed hs).1
  | createPost id body fresh now =>
    have hsame : (CreatePost s id body fresh now).users = s.users ∧
        (CreatePost s id body fresh now).feeds = s.feeds := by
      unfold CreatePost
      cases body with
      | none => exact ⟨rfl, rfl⟩
      | some post =>
        simp only
        split <;> split <;> exact ⟨rfl, rfl⟩
    simp only [Op.apply]
    unfold Settled
    rw [hsame.1, hsame.2]
    exact hs
  | followUser a b =>
    simp only [Op.apply, FollowUser]
    cases a with
    | none => exact hs
    | some follower =>
      cases b with
      | none => exact hs
      | some followee =>
        refine ⟨hs.1, ?_⟩
        simp only
        refine (hkeep _ _ _ ?_ ?_).trans ((hkeep _ _ _ ?_ ?_).trans hs.2) <;> intro u <;> rfl
  | unfollowUser a b =>
    simp only [Op.apply, UnfollowUser]
    cases a with
    | none => exact hs
    | some follower =>
      cases b with
      | none => exact hs
      | some followee =>
        refine ⟨hs.1, ?_⟩
        simp only
        refine (hkeep _ _ _ ?_ ?_).trans ((hkeep _ _ _ ?_ ?_).trans hs.2) <;> intro u <;> rfl
  | setCelebrityStatus a b =>
    simp only [Op.apply, SetCelebrityStatus]
    cases a with
    | none => exact hs
    | some id1 =>
      cases b with
      | none => exact hs
      | some flag =>
        refine ⟨hs.1, ?_⟩
        simp only
        refine (hkeep _ _ _ ?_ ?_).trans hs.2 <;> intro u <;> rfl

theorem runOps_settled (ops : List Op) (s : State) (userID : ObjectID) (feed : Feed)
    (hs : Settled s userID feed) : Settled (runOps s ops) userID feed := by
  induction ops generalizing s with
  | nil => exact hs
  | cons op rest ih =>
    unfold runOps
    rw [List.foldl_cons]
    exact ih (op.apply s) (apply_settled s op userID feed hs)

theorem getFeed_merge_settles (s : State) (req : Request) (env : Env) (userID : ObjectID)
    (hid : req.id = some userID) (hmerge : Call.updateFeed ∈ (GetFeed s req env).calls) :
    ∃ feed, Settled (GetFeed s req env).state userID feed ∧ feed.UpdatedAt = env.mergeAt := by
  rcases req with ⟨id, page, limit⟩
  simp only at hid
  subst hid
  cases page with
  | none => simp [GetFeed] at hmerge
  | some page =>
    cases limit with
    | none => simp [GetFeed] at hmerge
    | some limit =>
      simp only [GetFeed] at hmerge ⊢
      cases hget : cacheGet s.cache (cacheKey userID page limit) env.cacheGetAt with
      | some posts => simp [hget] at hmerge
      | none =>
        simp only [hget] at hmerge ⊢
        have hst := loadOrCreateFeed_state s userID env.feedCreatedAt
        have hcl := loadOrCreateFeed_calls s userID env.feedCreatedAt
        unfold getFeedMiss at hmerge ⊢
        cases hu : findUser s.users userID with
        | none => simp [hu] at hmerge
        | some user =>
          simp only [hu] at hmerge ⊢
          rcases hlc : loadOrCreateFeed s userID env.feedCreatedAt with ⟨fd, s1, calls1⟩
          rw [hlc] at hst hcl hmerge
          simp only at hst hcl hmerge ⊢
          by_cases hstale : user.LastFeedUpdate < fd.UpdatedAt
          · simp only [hstale, if_true] at hmerge ⊢
            cases hup : updateFeed s1 userID fd env.mergeAt with
            | none =>
              have := (updateFeed_isSome_iff s1 userID fd env.mergeAt).mpr
                (by rw [hst.1, hu]; rfl)
              simp [hup] at this
            | some r =>
              rcases r with ⟨s2, fd2⟩
              simp only
              obtain ⟨hset, hat⟩ :=
                updateFeed_settles s1 s2 userID fd fd2 env.mergeAt hup hst.2.2.2
              refine ⟨fd2, ?_, hat⟩
              obtain ⟨h1, h2, -⟩ := fetchAndCache_users s2 fd2 (cacheKey userID page limit)
                page limit (wrapInt64 (wrapInt64 (page - 1) * limit)) env
                ([Call.cacheGet, Call.findUser] ++ calls1 ++ [Call.updateFeed])
              unfold Settled
              rw [h1, h2]
              exact hset
          · simp only [hstale, if_false] at hmerge
            rw [fetchAndCache_calls _ _ _ _ _ _ _ _ _ (by decide) (by decide)] at hmerge
            simp at hmerge
            exact absurd hmerge hcl

/-- C12. When a GetFeed call has run updateFeed for a user, the stored
LastFeedUpdate of that user and the stored UpdatedAt of the user's feed are the same
instant (the merge's clock reading), so LastFeedUpdate is not earlier than UpdatedAt.
After any further sequence of GetFeed, CreatePost, FollowUser, UnfollowUser and
SetCelebrityStatus operations the stored feed of that user is still the same
document, and no GetFeed call for that user runs updateFeed again. -/
theorem merge_runs_once (s : State) (req : Request) (env : Env) (userID : ObjectID)
    (hid : req.id = some userID) (hmerge : Call.updateFeed ∈ (GetFeed s req env).calls) :
    (∃ u f, findUser (GetFeed s req env).state.users userID = some u ∧
      findFeed (GetFeed s req env).state.feeds userID = some f ∧
      u.LastFeedUpdate = env.mergeAt ∧ f.UpdatedAt = env.mergeAt ∧
      ¬ u.LastFeedUpdate < f.UpdatedAt) ∧
    ∀ ops : List Op,
      findFeed (runOps (GetFeed s req env).state ops).feeds userID =
        findFeed (GetFeed s req env).state.feeds userID ∧
      ∀ (req2 : Request) (env2 : Env), req2.id = some userID →
        Call.updateFeed ∉ (GetFeed (runOps (GetFeed s req env).state ops) req2 env2).calls := by
  obtain ⟨feed, hset, hat⟩ := getFeed_merge_settles s req env userID hid hmerge
  constructor
  · obtain ⟨hf, hu⟩ := hset
    cases hfu : findUser (GetFeed s req env).state.users userID with
    | none => rw [hfu] at hu; exact absurd hu (by simp)
    | some u =>
      rw [hfu] at hu
      have hlfu : u.LastFeedUpdate = feed.UpdatedAt := by simpa using hu
      refine ⟨u, feed, rfl, hf, by rw [hlfu, hat], hat, ?_⟩
      rw [hlfu]
      exact Nat.lt_irrefl _
  · intro ops
    have hrun := runOps_settled ops _ userID feed hset
    refine ⟨by rw [hrun.1, hset.1], fun req2 env2 hid2 => ?_⟩
    exact (getFeed_settled _ req2 env2 userID feed hrun).2 hid2

/-- Witness for C12: the first request for A in stFresh runs the merge. -/
theorem merge_runs_once_witness :
    (∃ u f, findUser (GetFeed stFresh reqA envLate).state.users 1 = some u ∧
      findFeed (GetFeed stFresh reqA envLate).state.feeds 1 = some f ∧
      u.LastFeedUpdate = envLate.mergeAt ∧ f.UpdatedAt = envLate.mergeAt ∧
      ¬ u.LastFeedUpdate < f.UpdatedAt) ∧
    ∀ ops : List Op,
      findFeed (runOps (GetFeed stFresh reqA envLate).state ops).feeds 1 =
        findFeed (GetFeed stFresh reqA envLate).state.feeds 1 ∧
      ∀ (req2 : Request) (env2 : Env), req2.id = some 1 →
        Call.updateFeed ∉
          (GetFeed (runOps (GetFeed stFresh reqA envLate).state ops) req2 env2).calls :=
  merge_runs_once stFresh reqA envLate 1 rfl (by decide)

/-- C12 on a run: after A's first request, B publishes a second post at instant
500; A asks again (another page size, so the cache is missed) and the new post is
neither merged into A's feed nor part of the answer. -/
theorem new_post_after_merge_stays_out :
    (runOps (GetFeed stFresh reqA envLate).state
      [Op.createPost (some 2) (some postB2) 13 500]).posts.map (fun p => p.ID) = [10, 13] ∧
    (GetFeed (runOps (GetFeed stFresh reqA envLate).state
        [Op.createPost (some 2) (some postB2) 13 500])
      ⟨some 1, some 1, some 5⟩ envNext).calls =
      [Call.cacheGet, Call.findUser, Call.findFeed, Call.findPosts, Call.cacheSet] ∧
    (GetFeed (runOps (GetFeed stFresh reqA envLate).state
        [Op.createPost (some 2) (some postB2) 13 500])
      ⟨some 1, some 1, some 5⟩ envNext).resp = .ok [postB] 1 5 ∧
    findFeed (GetFeed (runOps (GetFeed stFresh reqA envLate).state
        [Op.createPost (some 2) (some postB2) 13 500])
      ⟨some 1, some 1, some 5⟩ envNext).state.feeds 1 =
      some { UserID := 1, Posts := [10], UpdatedAt := 302 } := by
  decide

theorem digitChar_val (k : Nat) (hk : k < 10) :
    (Nat.digitChar k).toNat - 48 = k ∧ Nat.digitChar k ≠ ':' ∧ Nat.digitChar k ≠ '-' := by
  interval_cases k <;> decide

theorem toDigitsCore_spec (fuel : Nat) : ∀ (n : Nat) (ds : List Char), n < fuel →
    ∃ l, Nat.toDigitsCore 10 fuel n ds = l ++ ds ∧ decVal l = n ∧ l ≠ [] ∧
      ∀ c ∈ l, c ≠ ':' ∧ c ≠ '-' := by
  induction fuel with
  | zero => intro n ds h; exact absurd h (Nat.not_lt_zero _)
  | succ fuel ih =>
    intro n ds hn
    have hd := digitChar_val (n % 10) (Nat.mod_lt _ (by decide))
    unfold Nat.toDigitsCore
    by_cases h0 : n / 10 = 0
    · simp only [h0, if_true]
      refine ⟨[Nat.digitChar (n % 10)], rfl, ?_, by simp, ?_⟩
      · simp only [decVal, List.foldl_cons, List.foldl_nil, hd.1]
        omega
      · intro c hc
        rw [List.mem_singleton] at hc
        rw [hc]; exact hd.2
    · simp only [h0, if_false]
      obtain ⟨l, hl, hv, -, hc⟩ := ih (n / 10) (Nat.digitChar (n % 10) :: ds) (by omega)
      refine ⟨l ++ [Nat.digitChar (n % 10)], by rw [hl]; simp, ?_, by simp, ?_⟩
      · unfold decVal at hv ⊢
        rw [List.foldl_append, hv]
        simp only [List.foldl_cons, List.foldl_nil, hd.1]
        omega
      · intro c hcm
        rw [List.mem_append, List.mem_singleton] at hcm
        rcases hcm with h | h
        · exact hc c h
        · rw [h]; exact hd.2

theorem natRepr_spec (n : Nat) :
    decVal (toString n).data = n ∧ (toString n).data ≠ [] ∧
      ∀ c ∈ (toString n).data, c ≠ ':' ∧ c ≠ '-' := by
  obtain ⟨l, hl, hv, hne, hc⟩ := toDigitsCore_spec (n + 1) n [] (Nat.lt_succ_self n)
  have hdata : (toString n).data = l := by
    show (Nat.toDigits 10 n) = l
    unfold Nat.toDigits
    rw [hl, List.append_nil]
  rw [hdata]
  exact ⟨hv, hne, hc⟩

theorem intRepr_ofNat (m : Nat) : (toString (Int.ofNat m)).data = (toString m).data := rfl

theorem intRepr_negSucc (m : Nat) :
    (toString (Int.negSucc m)).data = '-' :: (toString (m + 1)).data := rfl

theorem intRepr_no_colon (i : Int) : ∀ c ∈ (toString i).data, c ≠ ':' := by
  cases i with
  | ofNat m =>
    rw [intRepr_ofNat]
    exact fun c hc => ((natRepr_spec m).2.2 c hc).1
  | negSucc m =>
    rw [intRepr_negSucc]
    intro c hc
    rw [List.mem_cons] at hc
    rcases hc with h | h
    · rw [h]; decide
    · exact ((natRepr_spec (m + 1)).2.2 c h).1

theorem intRepr_injective (i j : Int) (h : (toString i).data = (toString j).data) : i = j := by
  cases i with
  | ofNat m =>
    cases j with
    | ofNat k =>
      rw [intRepr_ofNat, intRepr_ofNat] at h
      have := congrArg decVal h
      rw [(natRepr_spec m).1, (natRepr_spec k).1] at this
      rw [this]
    | negSucc k =>
      rw [intRepr_ofNat, intRepr_negSucc] at h
      have hmem : '-' ∈ (toString m).data := by rw [h]; exact List.mem_cons_self _ _
      exact absurd rfl ((natRepr_spec m).2.2 _ hmem).2
  | negSucc m =>
    cases j with
    | ofNat k =>
      rw [intRepr_ofNat, intRepr_negSucc] at h
      have hmem : '-' ∈ (toString k).data := by rw [← h]; exact List.mem_cons_self _ _
      exact absurd rfl ((natRepr_spec k).2.2 _ hmem).2
    | negSucc k =>
      rw [intRepr_negSucc, intRepr_negSucc] at h
      have := congrArg decVal (List.cons.inj h).2
      rw [(natRepr_spec (m + 1)).1, (natRepr_spec (k + 1)).1] at this
      have hmk : m = k := by omega
      rw [hmk]

theorem hexDigit_injective : ∀ a : Fin 16, ∀ b : Fin 16,
    hexDigit a.val = hexDigit b.val → a = b := by
  decide

theorem eq_of_digits_eq (n m : Nat) (k : Nat)
    (h : ∀ i, i < k → n / 16 ^ i % 16 = m / 16 ^ i % 16) : n % 16 ^ k = m % 16 ^ k := by
  induction k with
  | zero => simp [Nat.mod_one]
  | succ k ih =>
    rw [Nat.mod_pow_succ, Nat.mod_pow_succ, ih (fun i hi => h i (Nat.lt_succ_of_lt hi)),
      h k (Nat.lt_succ_self k)]

theorem Hex_injective (u v : ObjectID) (h : Hex u = Hex v) : u = v := by
  unfold Hex at h
  have hl := congrArg String.data h
  simp only at hl
  rw [List.map_inj_left] at hl
  have hdig : ∀ i, i < 24 → u.val / 16 ^ i % 16 = v.val / 16 ^ i % 16 := by
    intro i hi
    have := hl (23 - i) (List.mem_range.mpr (by omega))
    have h23 : 23 - (23 - i) = i := by omega
    rw [h23] at this
    have hfin := hexDigit_injective ⟨u.val / 16 ^ i % 16, Nat.mod_lt _ (by decide)⟩
      ⟨v.val / 16 ^ i % 16, Nat.mod_lt _ (by decide)⟩ this
    exact congrArg Fin.val hfin
  have hmod := eq_of_digits_eq u.val v.val 24 hdig
  have hu : u.val < 16 ^ 24 := by have := u.isLt; norm_num at this ⊢; exact this
  have hv : v.val < 16 ^ 24 := by have := v.isLt; norm_num at this ⊢; exact this
  rw [Nat.mod_eq_of_lt hu, Nat.mod_eq_of_lt hv] at hmod
  exact Fin.ext hmod

theorem Hex_length (u : ObjectID) : (Hex u).data.length = 24 := by
  simp [Hex]

theorem split_at_colon : ∀ (p q l r : List Char), (∀ c ∈ p, c ≠ ':') → (∀ c ∈ q, c ≠ ':') →
    p ++ ':' :: l = q ++ ':' :: r → p = q ∧ l = r := by
  intro p
  induction p with
  | nil =>
    intro q l r _ hq h
    cases q with
    | nil => exact ⟨rfl, (List.cons.inj h).2⟩
    | cons b q =>
      have hb : ':' = b := (List.cons.inj h).1
      exact absurd hb.symm (hq b (List.mem_cons_self _ _))
  | cons a p ih =>
    intro q l r hp hq h
    cases q with
    | nil =>
      have ha : a = ':' := (List.cons.inj h).1
      exact absurd ha (hp a (List.mem_cons_self _ _))
    | cons b q =>
      obtain ⟨hab, ht⟩ := List.cons.inj h
      obtain ⟨h1, h2⟩ := ih q l r (fun c hc => hp c (List.mem_cons_of_mem _ hc))
        (fun c hc => hq c (List.mem_cons_of_mem _ hc)) ht
      exact ⟨by rw [hab, h1], h2⟩

theorem cacheKey_data (u : ObjectID) (page limit : Int) :
    (cacheKey u page limit).data =
      "feed:".data ++ ((Hex u).data ++ (':' :: ((toString page).data ++
        (':' :: (toString limit).data)))) := by
  unfold cacheKey
  simp only [String.data_append, List.append_assoc]
  rfl

theorem cacheKey_eq_iff (u v : ObjectID) (page page1 limit limit1 : Int) :
    cacheKey u page limit = cacheKey v page1 limit1 ↔
      u = v ∧ page = page1 ∧ limit = limit1 := by
  constructor
  · intro h
    have hd := congrArg String.data h
    rw [cacheKey_data, cacheKey_data] at hd
    have h1 := List.append_cancel_left hd
    obtain ⟨hhex, hrest⟩ := List.append_inj h1 (by rw [Hex_length, Hex_length])
    have huv : u = v := Hex_injective u v (String.ext hhex)
    obtain ⟨hp, hl⟩ := split_at_colon _ _ _ _ (intRepr_no_colon page)
      (intRepr_no_colon page1) (List.cons.inj hrest).2
    exact ⟨huv, intRepr_injective _ _ hp, intRepr_injective _ _ hl⟩
  · rintro ⟨rfl, rfl, rfl⟩
    rfl

/-- C13. The cache key is injective in (userId, page, limit): two keys built by
GetFeed are equal only if user id, page and limit are all equal; so an entry
written for one triple leaves what the cache answers for any other triple as it was. -/
theorem cacheKey_injective (u v : ObjectID) (page page1 limit limit1 : Int) :
    (cacheKey u page limit = cacheKey v page1 limit1 ↔
      u = v ∧ page = page1 ∧ limit = limit1) ∧
    (¬ (u = v ∧ page = page1 ∧ limit = limit1) →
      ∀ (cache : List CacheEntry) (value : List Post) (t now : Time),
        cacheGet (cacheSet cache (cacheKey u page limit) value t)
          (cacheKey v page1 limit1) now = cacheGet cache (cacheKey v page1 limit1) now) := by
  refine ⟨cacheKey_eq_iff u v page page1 limit limit1, ?_⟩
  intro hne cache value t now
  have hkey : cacheKey u page limit ≠ cacheKey v page1 limit1 :=
    fun h => hne ((cacheKey_eq_iff u v page page1 limit limit1).mp h)
  unfold cacheGet
  rw [find?_cacheSet_other cache (cacheKey v page1 limit1) (cacheKey u page limit) value t hkey]

/-- Witness for C13: the keys of users 1 and 2 for the same page differ, and
caching a page for user 1 does not change what user 2 is served. -/
theorem cacheKey_injective_witness :
    (cacheKey 1 1 10 = cacheKey 2 1 10 ↔
      (1 : ObjectID) = 2 ∧ (1 : Int) = 1 ∧ (10 : Int) = 10) ∧
    ∀ (cache : List CacheEntry) (value : List Post) (t now : Time),
      cacheGet (cacheSet cache (cacheKey 1 1 10) value t) (cacheKey 2 1 10) now
        = cacheGet cache (cacheKey 2 1 10) now :=
  ⟨(cacheKey_injective 1 2 1 1 10 10).1, (cacheKey_injective 1 2 1 1 10 10).2 (by decide)⟩

end FeedSystem
